import Mathlib

/-!
A shallow embedding of the key/index resolution and expression-generation
engine of the `turbine` DynamoDB mapping layer (`src/expressions.ts`,
`src/parsing.ts`, `src/entity.ts`, `src/table.ts`).

JavaScript runtime values are modelled by the inductive type `Val`
(numbers as integers, objects and the records passed around as ordered
association lists, which matches JavaScript property insertion order).
Schema validation (zod) is an external collaborator that is out of scope
for this engine, so `schema.parseAsync` is modelled as the identity on the
record.  Asynchronous functions are modelled as pure functions; a thrown
`TurbineError` is modelled as `Except.error` carrying the message, and an
operation that returns `Except.error` has produced no storage request,
which models "the error is raised before any storage call is issued".
-/

set_option maxRecDepth 10000

namespace Turbine

/-- JavaScript runtime values: strings, (integer) numbers, booleans,
`undefined`, `null`, arrays and plain objects (ordered field lists). -/
inductive Val where
  | str (s : String)
  | num (n : Int)
  | bool (b : Bool)
  | undef
  | null
  | list (xs : List Val)
  | obj (fields : List (String × Val))

/-- JavaScript truthiness of a value. -/
def jsTruthy : Val → Bool
  | .str s => s ≠ ""
  | .num n => n ≠ 0
  | .bool b => b
  | .undef => false
  | .null => false
  | .list _ => true
  | .obj _ => true

/-- Whether a value is literally `undefined` (the JS `=== undefined` test). -/
def isUndef : Val → Bool
  | .undef => true
  | _ => false

/-- Whether a value is literally `null` (the JS `=== null` test). -/
def isNull : Val → Bool
  | .null => true
  | _ => false

/-- Property lookup on an ordered association list (a JS object). -/
def jsLookup {α : Type} (m : List (String × α)) (k : String) : Option α :=
  match m with
  | [] => none
  | (k₁, v₁) :: rest => if k₁ = k then some v₁ else jsLookup rest k

/-- Property assignment on a JS object: overwrite in place when the key is
present (object keys are unique, so replacing the first occurrence is
exact), otherwise append — JS preserves first-insertion order. -/
def jsInsert {α : Type} (m : List (String × α)) (k : String) (v : α) :
    List (String × α) :=
  match m with
  | [] => [(k, v)]
  | p :: rest => if p.1 = k then (k, v) :: rest else p :: jsInsert rest k v

/-- Property deletion on a JS object (the `delete obj[k]` statement). -/
def jsRemove {α : Type} (m : List (String × α)) (k : String) :
    List (String × α) :=
  m.filter (fun p => p.1 ≠ k)

/-- Optional-chained property access `v?.field`: field lookup on objects,
`undefined` on everything else. -/
def jsGet (v : Val) (field : String) : Val :=
  match v with
  | .obj fields => (jsLookup fields field).getD .undef
  | _ => Val.undef

/-- Array indexing `v[i]` used by the destructuring
`const [start, end] = expression.between`. -/
def jsIndex (v : Val) (i : Nat) : Val :=
  match v with
  | .list xs => xs.getD i .undef
  | _ => Val.undef

/-- Stringification of a primitive element by `Array.prototype.join`.
The key and operand types of the library (`KeyDefinitionPrimitive[]`,
`KeyConditionPrimitiveValue`) only admit strings and numbers as list
elements, so lists nested two levels deep cannot occur and are not
modelled. -/
def valJoinPrim : Val → String
  | .str s => s
  | .num n => toString n
  | .bool b => cond b "true" "false"
  | .undef => ""
  | .null => ""
  | .list _ => ""
  | .obj _ => "[object Object]"

/-- `Array.prototype.join(sep)` element rendering: a directly nested
list-of-primitives joins with `,` (the JS default), everything else
stringifies as a primitive. -/
def valJoinPart : Val → String
  | .list xs => String.intercalate "," (xs.map valJoinPrim)
  | v => valJoinPrim v

/-- `List.join(sep)` in JS form (`[].join = ""`, one element joins to
itself). -/
def joinSep (sep : String) : List String → String
  | [] => ""
  | [c] => c
  | c :: rest => c ++ sep ++ joinSep sep rest

/-- The string produced by `parts.join("#")` on an array value. -/
def joinParts (xs : List Val) : String :=
  joinSep "#" (xs.map valJoinPart)

/-- `buildValue` (src/expressions.ts): arrays are joined with `#` into a
single string, everything else passes through unchanged. -/
def buildValue (value : Val) : Val :=
  match value with
  | .list xs => .str (joinParts xs)
  | v => v

/-- An index of a table: hash key attribute and optional range key
attribute (src/types/table.ts `TableIndexDefinition`). -/
structure TableIndexDefinition where
  hashKey : String
  rangeKey : Option String := none

/-- A table definition: name plus the ordered index map
(src/types/table.ts `TableDefinition`; the document client is an external
collaborator and is not modelled). -/
structure TableDefinition where
  name : String
  indexes : List (String × TableIndexDefinition)

/-- A key-derivation rule of an entity (src/types/key.ts `KeyDefinition`):
either a constant value (primitive or array) or a function of the
validated record. -/
inductive KeyRule where
  | value (v : Val)
  | fn (f : List (String × Val) → Val)

/-- Run a key rule against a record (`typeof value === "function"` branch
of `parseKeys`). -/
def runKeyRule (rule : KeyRule) (data : List (String × Val)) : Val :=
  match rule with
  | .value v => v
  | .fn f => f data

/-- An entity definition: its table and its key-derivation map.  The zod
schema is an external collaborator (validation is out of scope) and is
modelled as the identity transform. -/
structure EntityDefinition where
  table : TableDefinition
  keys : List (String × KeyRule)

/-- One iteration of the `for (const key in definition.keys)` loop of
`parseKeys`: run the rule, flag a list with an `undefined` part as
invalid (dropping the attribute), join a valid list with `#`, and keep a
non-list value unless it is `undefined`. -/
def parseKeysStep (data : List (String × Val)) (keys : List (String × Val))
    (kr : String × KeyRule) : List (String × Val) :=
  match runKeyRule kr.2 data with
  | .list parts =>
      if parts.any isUndef then keys
      else jsInsert keys kr.1 (.str (joinParts parts))
  | .undef => keys
  | v => jsInsert keys kr.1 v

/-- `parseKeys` (src/parsing.ts): derive every key attribute of the
entity from the record. -/
def parseKeys (definition : EntityDefinition) (data : List (String × Val)) :
    List (String × Val) :=
  definition.keys.foldl (parseKeysStep data) []

/-- `expandPartialPayload` (src/parsing.ts): partial schema validation is
modelled as the identity, so the result is the record overlaid with all
derivable key attributes (`{...parsedData, ...parseKeys(...)}`). -/
def expandPartialPayload (definition : EntityDefinition)
    (data : List (String × Val)) : List (String × Val) :=
  (parseKeys definition data).foldl (fun m p => jsInsert m p.1 p.2) data

/-- Output of `generateFilterExpression`: the early-return `{}` is the
bundle with no expression and empty placeholder maps. -/
structure ExpressionBundle where
  FilterExpression : Option String := none
  ExpressionAttributeNames : List (String × String) := []
  ExpressionAttributeValues : List (String × Val) := []

/-- The guard `filters.length === 0` of `generateFilterExpression`: on a
plain object `length` is an ordinary property lookup, so the strict
comparison with `0` holds only when an attribute literally named
`length` maps to the number `0` (it never holds for the empty object). -/
def jsLengthIsZero (fs : List (String × Val)) : Bool :=
  match jsLookup fs "length" with
  | some (.num 0) => true
  | _ => false

/-- The thirteen outcomes of the early-return cascade of
`generateFilterExpression` (src/expressions.ts lines 82-134). -/
inductive FilterOp where
  | equals | notEquals | greaterThan | lessThan
  | greaterThanOrEquals | lessThanOrEquals | between
  | containsOp | notContainsOp | beginsWith
  | existsAttr | notExistsAttr | defaultEquals

/-- The branch selected for one filter entry: the same thirteen
`expression?.xxx` truthiness tests, in source order.  A falsy operand
(for example `equals: 0`) falls through to the trailing default-equals
branch, exactly as in the source. -/
def filterOpOf (e : Val) : FilterOp :=
  if jsTruthy (jsGet e "equals") then .equals
  else if jsTruthy (jsGet e "notEquals") then .notEquals
  else if jsTruthy (jsGet e "greaterThan") then .greaterThan
  else if jsTruthy (jsGet e "lessThan") then .lessThan
  else if jsTruthy (jsGet e "greaterThanOrEquals") then .greaterThanOrEquals
  else if jsTruthy (jsGet e "lessThanOrEquals") then .lessThanOrEquals
  else if jsTruthy (jsGet e "between") then .between
  else if jsTruthy (jsGet e "contains") then .containsOp
  else if jsTruthy (jsGet e "notContains") then .notContainsOp
  else if jsTruthy (jsGet e "beginsWith") then .beginsWith
  else if jsTruthy (jsGet e "exists") then .existsAttr
  else if jsTruthy (jsGet e "notExists") then .notExistsAttr
  else .defaultEquals

/-- One entry of the filter cascade of `generateFilterExpression`
(src/expressions.ts lines 75-135): the clause string and the value-map
assignments of the branch selected by `filterOpOf`. -/
def filterEntryParts (pre attr : String) (e : Val) : String × List (String × Val) :=
  let attributeName := "#" ++ pre ++ "_" ++ attr
  let attributeValue := ":" ++ pre ++ "_" ++ attr
  match filterOpOf e with
  | .equals =>
    (attributeName ++ " = " ++ attributeValue,
     [(attributeValue, buildValue (jsGet e "equals"))])
  | .notEquals =>
    (attributeName ++ " <> " ++ attributeValue,
     [(attributeValue, buildValue (jsGet e "notEquals"))])
  | .greaterThan =>
    (attributeName ++ " > " ++ attributeValue,
     [(attributeValue, buildValue (jsGet e "greaterThan"))])
  | .lessThan =>
    (attributeName ++ " < " ++ attributeValue,
     [(attributeValue, buildValue (jsGet e "lessThan"))])
  | .greaterThanOrEquals =>
    (attributeName ++ " >= " ++ attributeValue,
     [(attributeValue, buildValue (jsGet e "greaterThanOrEquals"))])
  | .lessThanOrEquals =>
    (attributeName ++ " <= " ++ attributeValue,
     [(attributeValue, buildValue (jsGet e "lessThanOrEquals"))])
  | .between =>
    (attributeName ++ " BETWEEN " ++ (attributeValue ++ "1") ++ " AND " ++
       (attributeValue ++ "2"),
     [(attributeValue ++ "1", buildValue (jsIndex (jsGet e "between") 0)),
      (attributeValue ++ "2", buildValue (jsIndex (jsGet e "between") 1))])
  | .containsOp =>
    ("contains(" ++ attributeName ++ ", " ++ attributeValue ++ ")",
     [(attributeValue, buildValue (jsGet e "contains"))])
  | .notContainsOp =>
    ("not contains(" ++ attributeName ++ ", " ++ attributeValue ++ ")",
     [(attributeValue, buildValue (jsGet e "notContains"))])
  | .beginsWith =>
    ("begins_with(" ++ attributeName ++ ", " ++ attributeValue ++ ")",
     [(attributeValue, buildValue (jsGet e "beginsWith"))])
  | .existsAttr =>
    ("attribute_exists(" ++ attributeName ++ ")", [])
  | .notExistsAttr =>
    ("attribute_not_exists(" ++ attributeName ++ ")", [])
  | .defaultEquals =>
    (attributeName ++ " = " ++ attributeValue, [(attributeValue, buildValue e)])

/-- One step of the `Object.entries(filters).map(...)` loop: record the
attribute name, apply the value-map assignments of the branch, and append
the clause. -/
def gfeStep (pre : String)
    (acc : List (String × String) × List (String × Val) × List String)
    (entry : String × Val) :
    List (String × String) × List (String × Val) × List String :=
  let attributeName := "#" ++ pre ++ "_" ++ entry.1
  let (clause, inserts) := filterEntryParts pre entry.1 entry.2
  (jsInsert acc.1 attributeName entry.1,
   inserts.foldl (fun m p => jsInsert m p.1 p.2) acc.2.1,
   acc.2.2 ++ [clause])

/-- `generateFilterExpression` (src/expressions.ts).  The `filters` record
is an ordered attribute-to-expression list; `none` models an absent
(`undefined`) argument. -/
def generateFilterExpression (filters : Option (List (String × Val)))
    (pre : String) : ExpressionBundle :=
  match filters with
  | none => {}
  | some fs =>
    if jsLengthIsZero fs then {}
    else
      let (ns, vs, cs) := fs.foldl (gfeStep pre) ([], [], [])
      { FilterExpression := some (joinSep " AND " cs),
        ExpressionAttributeNames := ns,
        ExpressionAttributeValues := vs }

/-- Output of `generateQueryExpression`. -/
structure QueryExpressionBundle where
  KeyConditionExpression : Option String
  FilterExpression : Option String
  ExpressionAttributeNames : List (String × String)
  ExpressionAttributeValues : List (String × Val)

/-- `generateQueryExpression` (src/expressions.ts): key condition built by
the same generator under the `key` namespace, filters under `filter`, with
the placeholder maps spread together. -/
def generateQueryExpression (key : List (String × Val))
    (filters : Option (List (String × Val))) : QueryExpressionBundle :=
  let keyCondition := generateFilterExpression (some key) "key"
  let filter := generateFilterExpression filters "filter"
  { KeyConditionExpression := keyCondition.FilterExpression,
    FilterExpression := filter.FilterExpression,
    ExpressionAttributeNames :=
      filter.ExpressionAttributeNames.foldl (fun m p => jsInsert m p.1 p.2)
        keyCondition.ExpressionAttributeNames,
    ExpressionAttributeValues :=
      filter.ExpressionAttributeValues.foldl (fun m p => jsInsert m p.1 p.2)
        keyCondition.ExpressionAttributeValues }

/-- `generateAttributeValues` (src/expressions.ts): `:`-placeholders for
every defined, non-null patch entry. -/
def generateAttributeValues (patch : List (String × Val)) (pre : String) :
    List (String × Val) :=
  (patch.filter (fun e => !isUndef e.2 && !isNull e.2)).foldl
    (fun m e => jsInsert m (":" ++ pre ++ e.1) e.2) []

/-- `generateAttributeNames` (src/expressions.ts): `#`-placeholders for
every defined patch entry (null entries included). -/
def generateAttributeNames (patch : List (String × Val)) (pre : String) :
    List (String × String) :=
  (patch.filter (fun e => !isUndef e.2)).foldl
    (fun m e => jsInsert m ("#" ++ pre ++ e.1) e.1) []

/-- The SET clause of one patch entry: `#key = :key`, wrapped in
`if_not_exists` when the key is on the do-not-overwrite list. -/
def setClauseFor (doNotOverwrite : List String) (k : String) : String :=
  let value := ":" ++ k
  let value :=
    if doNotOverwrite.contains k then
      "if_not_exists(#" ++ k ++ ", " ++ value ++ ")"
    else value
  "#" ++ k ++ " = " ++ value

/-- The SET clause list of `generateUpdateExpression`: defined, non-null
entries in patch order. -/
def setClauses (patch : List (String × Val)) (doNotOverwrite : List String) :
    List String :=
  (patch.filter (fun e => !isUndef e.2 && !isNull e.2)).map
    (fun e => setClauseFor doNotOverwrite e.1)

/-- The REMOVE clause list of `generateUpdateExpression`: explicit-null
entries in patch order. -/
def removeClauses (patch : List (String × Val)) : List String :=
  (patch.filter (fun e => isNull e.2)).map (fun e => "#" ++ e.1)

/-- Output of `generateUpdateExpression`. -/
structure UpdateExpressionBundle where
  UpdateExpression : String
  ExpressionAttributeNames : List (String × String)
  ExpressionAttributeValues : List (String × Val)

/-- `generateUpdateExpression` (src/expressions.ts): SET and REMOVE
components, each dropped when empty (the `.filter(Boolean)` on the
component array), joined with a single space. -/
def generateUpdateExpression (patch : List (String × Val))
    (doNotOverwrite : List String) : UpdateExpressionBundle :=
  let setExpression := setClauses patch doNotOverwrite
  let removeExpression := removeClauses patch
  let expressionComponents :=
    (if setExpression.isEmpty then [] else
      ["SET " ++ joinSep ", " setExpression]) ++
    (if removeExpression.isEmpty then [] else
      ["REMOVE " ++ joinSep ", " removeExpression])
  { UpdateExpression := joinSep " " expressionComponents,
    ExpressionAttributeNames := generateAttributeNames patch "",
    ExpressionAttributeValues := generateAttributeValues patch "" }

/-- The `InvalidKeyExpressionError` message of `resolveKeyValues`. -/
def invalidKeyExpressionMessage : String :=
  "When using `get`, the only valid key expression is `equals`."

/-- The per-entry step of `resolveKeyValues` (src/parsing.ts lines
173-181): a non-array object is unwrapped through its `equals` field and
rejected when it has none; a `null` entry reaches the JS `in` operator
and raises a `TypeError`, modelled as an error as well; everything else
passes through. -/
def resolveKeyValue (v : Val) : Except String Val :=
  match v with
  | .obj fields =>
      match jsLookup fields "equals" with
      | some v => Except.ok v
      | none => Except.error invalidKeyExpressionMessage
  | .null =>
      Except.error
        "TypeError: Cannot use \x27in\x27 operator to search for \x27equals\x27 in null"
  | v => Except.ok v

/-- `resolveKeyValues` (src/parsing.ts): unwrap `equals` expression
objects, reject any other expression object, and build each value. -/
def resolveKeyValues (key : List (String × Val)) :
    Except String (List (String × Val)) :=
  key.foldlM
    (fun acc kv => do
      let v ← resolveKeyValue kv.2
      pure (jsInsert acc kv.1 (buildValue v)))
    []

/-- The `key.index || "table"` default of `resolveIndex` (the `index`
property is typed as a key of the index map, hence a string; an empty
string is falsy). -/
def resolveIndexName (key : List (String × Val)) : String :=
  match jsLookup key "index" with
  | some (.str s) => if s ≠ "" then s else "table"
  | _ => "table"

/-- `resolveIndex` (src/parsing.ts lines 188-218): the index name defaults
to `table` when the `index` property is absent or falsy; the named index
must exist; its hash key must be present and non-null; the range key is
added only when present and defined. -/
def resolveIndex (definition : EntityDefinition) (key : List (String × Val)) :
    Except String (String × List (String × Val)) :=
  match jsLookup definition.table.indexes (resolveIndexName key) with
  | none =>
      .error ("Index with name \"" ++ resolveIndexName key ++
        "\" is not defined in table \"" ++ definition.table.name ++ "\"")
  | some index =>
    match jsLookup key index.hashKey with
    | none => .error ("No value found for hash key \"" ++ index.hashKey ++ "\"")
    | some hv =>
      if isNull hv || isUndef hv then
        .error ("No value found for hash key \"" ++ index.hashKey ++ "\"")
      else
        let resolvedKey := [(index.hashKey, hv)]
        let resolvedKey :=
          match index.rangeKey with
          | some rk =>
            match jsLookup key rk with
            | some rv => if isUndef rv then resolvedKey else jsInsert resolvedKey rk rv
            | none => resolvedKey
          | none => resolvedKey
        .ok (resolveIndexName key, resolvedKey)

/-- The `key.index = "table"` assignment performed by `entity.get`,
`entity.update` and `entity.delete` on the caller-supplied key object. -/
def forceTableIndex (key : List (String × Val)) : List (String × Val) :=
  jsInsert key "index" (.str "table")

/-- The storage request issued by `entity.get` (the `TableName` injection
and pass-through options of `table.get` do not involve the engine and are
not modelled). -/
structure GetRequest where
  Key : List (String × Val)

/-- The storage request issued by `entity.delete`. -/
structure DeleteRequest where
  Key : List (String × Val)

/-- The storage request issued by `entity.update` (`ReturnValues` is a
constant and is not modelled). -/
structure UpdateRequest where
  Key : List (String × Val)
  expr : UpdateExpressionBundle

/-- `entity.get` (src/entity.ts lines 93-104): mutates the caller-supplied
key (first component of the result), then resolves it against the forced
`table` index and produces the storage request; `Except.error` means the
error was raised before the storage call. -/
def entityGet (definition : EntityDefinition) (key : List (String × Val)) :
    List (String × Val) × Except String GetRequest :=
  let key := forceTableIndex key
  (key, do
    let r ← resolveIndex definition key
    let kv ← resolveKeyValues r.2
    pure { Key := kv })

/-- `entity.delete` (src/entity.ts lines 106-112). -/
def entityDelete (definition : EntityDefinition) (key : List (String × Val)) :
    List (String × Val) × Except String DeleteRequest :=
  let key := forceTableIndex key
  (key, do
    let r ← resolveIndex definition key
    let kv ← resolveKeyValues r.2
    pure { Key := kv })

/-- `entity.update` (src/entity.ts lines 35-53): key mutation and
resolution as in `get`, the patch expanded through the (identity-modelled)
partial schema plus key derivation, key fields deleted from the payload,
and the update expression generated with `createdAt` on the
do-not-overwrite list. -/
def entityUpdate (definition : EntityDefinition) (key : List (String × Val))
    (patch : List (String × Val)) :
    List (String × Val) × Except String UpdateRequest :=
  let key := forceTableIndex key
  (key, do
    let r ← resolveIndex definition key
    let payload := expandPartialPayload definition patch
    let payload := r.2.foldl
      (fun pl f => if (jsLookup pl f.1).isSome then jsRemove pl f.1 else pl)
      payload
    let kv ← resolveKeyValues r.2
    pure { Key := kv, expr := generateUpdateExpression payload ["createdAt"] })

/-- A paged result (src/types/entity.ts `PagedResult`): the parsed items
plus the optional continuation cursor and the optional `next` capability
(modelled by presence, `Option Unit`). -/
structure PagedResult where
  items : List Val
  lastEvaluatedKey : Option (List (String × Val)) := none
  next : Option Unit := none

/-- `parsePagedResult` (src/parsing.ts lines 146-165): instance parsing is
the identity here (schema validation is out of scope), the cursor and the
`next` capability are attached only when the backend returned a
`LastEvaluatedKey`, and `next` additionally only when a `next` closure was
supplied. -/
def parsePagedResult (items : Option (List Val))
    (lastEvaluatedKey : Option (List (String × Val))) (next : Option Unit) :
    PagedResult :=
  let output : PagedResult := { items := items.getD [] }
  if lastEvaluatedKey.isSome then
    { output with lastEvaluatedKey := lastEvaluatedKey, next := next }
  else output

/-- One raw backend response page (`Items` may be absent). -/
structure Page where
  Items : Option (List Val)
  LastEvaluatedKey : Option (List (String × Val))

/-- The paged result `entity.query` builds from one backend page: the
`next` closure is always constructed and supplied (src/entity.ts lines
67-70). -/
def entityQueryPage (p : Page) : PagedResult :=
  parsePagedResult p.Items p.LastEvaluatedKey (some ())

/-- `entity.queryAll` (src/entity.ts lines 79-91): the sequential loop
that accumulates page items and stops at the first page whose result
carries no `next` capability.  `pages` is the sequence of pages the
backend returns along the cursor chain; the empty list models an
exhausted backend. -/
def queryAll : List Page → List Val
  | [] => []
  | p :: rest =>
    let result := entityQueryPage p
    result.items ++ (if result.next.isSome then queryAll rest else [])

/-- The validation performed by `defineTable` (src/table.ts): a falsy
(empty) name is rejected, then `definition.indexes?.table` must exist — an
index definition is an object and objects are truthy, so the guard is
presence of the `table` entry. -/
def defineTable (definition : TableDefinition) :
    Except String TableDefinition :=
  if definition.name = "" then .error "Table name is required"
  else if (jsLookup definition.indexes "table").isNone then
    .error "Specify at least one index called \x27table\x27"
  else .ok definition

/-! ### Placeholder tokens of an expression string

A `#`- or `:`-prefixed token of an expression string is the marker
character together with the maximal run of identifier characters
(alphanumeric or underscore) that follows it, which is how DynamoDB
delimits expression attribute names and values. -/

/-- Identifier characters of a placeholder token. -/
def isTokenChar (c : Char) : Bool := c.isAlphanum || c = '_'

/-- All marker-prefixed tokens of a character list, in order of
appearance. -/
def scanTokens (m : Char) : List Char → List String
  | [] => []
  | c :: rest =>
    if c = m then
      String.mk (m :: rest.takeWhile isTokenChar) ::
        scanTokens m (rest.dropWhile isTokenChar)
    else scanTokens m rest
termination_by l => l.length
decreasing_by
  · exact Nat.lt_succ_of_le (List.dropWhile_sublist _).length_le
  · exact Nat.lt_succ_self _

/-- All marker-prefixed tokens of a string. -/
def tokensIn (m : Char) (s : String) : List String := scanTokens m s.data

theorem scanTokens_nil (m : Char) : scanTokens m [] = [] := by
  simp [scanTokens]

theorem scanTokens_cons_skip {m c : Char} (l : List Char) (h : c ≠ m) :
    scanTokens m (c :: l) = scanTokens m l := by
  rw [scanTokens, if_neg h]

theorem scanTokens_skip {m : Char} {l₁ : List Char} (l₂ : List Char)
    (h : ∀ c ∈ l₁, c ≠ m) : scanTokens m (l₁ ++ l₂) = scanTokens m l₂ := by
  induction l₁ with
  | nil => simp
  | cons c rest ih =>
    rw [List.cons_append, scanTokens_cons_skip _ (h c (by simp))]
    exact ih (fun c hc => h c (by simp [hc]))

theorem scanTokens_no_marker {m : Char} {l : List Char}
    (h : ∀ c ∈ l, c ≠ m) : scanTokens m l = [] := by
  have := @scanTokens_skip m l [] h
  simpa [scanTokens_nil] using this

theorem takeWhile_of_all {p : Char → Bool} {l : List Char}
    (h : l.all p) : l.takeWhile p = l := by
  induction l with
  | nil => simp
  | cons c rest ih =>
    simp only [List.all_cons, Bool.and_eq_true] at h
    simp [List.takeWhile_cons, h.1, ih h.2]

theorem dropWhile_of_all {p : Char → Bool} {l : List Char}
    (h : l.all p) : l.dropWhile p = [] := by
  induction l with
  | nil => simp
  | cons c rest ih =>
    simp only [List.all_cons, Bool.and_eq_true] at h
    simp [List.dropWhile_cons, h.1, ih h.2]

/-- The boundary condition after a token: the next character (when there
is one) is not an identifier character and not the marker. -/
def tokenBoundary (m : Char) : List Char → Prop
  | [] => True
  | c :: _ => isTokenChar c = false ∧ c ≠ m

theorem takeWhile_append_boundary {m : Char} {l₁ l₂ : List Char}
    (h : tokenBoundary m l₂) :
    (l₁ ++ l₂).takeWhile isTokenChar = l₁.takeWhile isTokenChar ∧
      (l₁ ++ l₂).dropWhile isTokenChar = l₁.dropWhile isTokenChar ++ l₂ := by
  induction l₁ with
  | nil =>
    match l₂, h with
    | [], _ => simp
    | c :: rest, h => simp [List.takeWhile_cons, List.dropWhile_cons, h.1]
  | cons c rest ih =>
    by_cases hc : isTokenChar c
    · simp [List.takeWhile_cons, List.dropWhile_cons, hc, ih.1, ih.2]
    · simp [List.takeWhile_cons, List.dropWhile_cons, hc]

theorem scanTokens_token {m : Char} {run rest : List Char}
    (hrun : run.all isTokenChar) (hrest : tokenBoundary m rest) :
    scanTokens m (m :: (run ++ rest)) =
      String.mk (m :: run) :: scanTokens m rest := by
  rw [scanTokens]
  simp only [if_pos rfl]
  rw [(takeWhile_append_boundary hrest).1, (takeWhile_append_boundary hrest).2,
    takeWhile_of_all hrun, dropWhile_of_all hrun]
  simp

theorem scanTokens_append {m : Char} (l₁ : List Char) {l₂ : List Char}
    (h : tokenBoundary m l₂) :
    scanTokens m (l₁ ++ l₂) = scanTokens m l₁ ++ scanTokens m l₂ := by
  suffices H : ∀ n (l₁ : List Char), l₁.length = n →
      scanTokens m (l₁ ++ l₂) = scanTokens m l₁ ++ scanTokens m l₂ from
    H l₁.length l₁ rfl
  intro n
  induction n using Nat.strong_induction_on with
  | _ n ih =>
    intro l₁ hn
    match l₁, hn with
    | [], _ => simp [scanTokens_nil]
    | c :: rest, hn =>
      by_cases hc : c = m
      · subst hc
        rw [List.cons_append, scanTokens, scanTokens]
        simp only [if_pos rfl]
        rw [(takeWhile_append_boundary h).1, (takeWhile_append_boundary h).2]
        rw [ih (rest.dropWhile isTokenChar).length
          (by rw [← hn]; simp only [List.length_cons];
              exact Nat.lt_succ_of_le (List.dropWhile_sublist _).length_le)
          _ rfl]
        simp
      · rw [List.cons_append, scanTokens_cons_skip _ hc, scanTokens_cons_skip _ hc]
        exact ih rest.length (by rw [← hn]; simp) _ rfl

/-- A well-formed attribute (or namespace) name: every character is an
identifier character, so the name neither contains a marker nor extends a
neighbouring token. -/
def wfName (s : String) : Prop := s.data.all isTokenChar = true

theorem wf_ne {l : List Char} {m : Char} (h : l.all isTokenChar = true)
    (hm : isTokenChar m = false) : ∀ c ∈ l, c ≠ m := by
  intro c hc hcm
  rw [List.all_eq_true] at h
  have hc' := h c hc
  rw [hcm, hm] at hc'
  exact Bool.false_ne_true hc'

/-- The identifier run of a namespaced placeholder. -/
def nameRun (pre attr : String) : List Char := pre.data ++ '_' :: attr.data

theorem nameRun_all {pre attr : String} (hp : wfName pre) (ha : wfName attr) :
    (nameRun pre attr).all isTokenChar = true := by
  simp only [nameRun, List.all_append, List.all_cons, Bool.and_eq_true]
  exact ⟨hp, by decide, ha⟩

theorem data_attr_name (pre attr : String) :
    ("#" ++ pre ++ "_" ++ attr).data = '#' :: nameRun pre attr := by
  simp [nameRun]

theorem data_attr_value (pre attr : String) :
    (":" ++ pre ++ "_" ++ attr).data = ':' :: nameRun pre attr := by
  simp [nameRun]

theorem scan_token_string {m : Char} {s : String} {run : List Char}
    (hdata : s.data = m :: run) (hrun : run.all isTokenChar = true) :
    scanTokens m s.data = [s] := by
  rw [hdata]
  have := @scanTokens_token m run [] hrun trivial
  simp only [List.append_nil, scanTokens_nil] at this
  rw [this, ← hdata]

theorem scan_append_str (m : Char) (s t : String)
    (hb : tokenBoundary m t.data) :
    scanTokens m (s ++ t).data = scanTokens m s.data ++ scanTokens m t.data := by
  rw [String.data_append]
  exact scanTokens_append _ hb

theorem tokenBoundary_append {m : Char} {l₁ : List Char} (l₂ : List Char)
    (h : tokenBoundary m l₁) (hne : l₁ ≠ []) :
    tokenBoundary m (l₁ ++ l₂) := by
  match l₁, hne with
  | c :: rest, _ => exact h

/-- A string that is itself one token, followed by more text: the token is
produced and scanning resumes after it. -/
theorem scan_token_prepend {m : Char} {s t : String} {run : List Char}
    (hdata : s.data = m :: run) (hrun : run.all isTokenChar = true)
    (hb : tokenBoundary m t.data) :
    scanTokens m (s ++ t).data = s :: scanTokens m t.data := by
  rw [String.data_append, hdata, List.cons_append, scanTokens_token hrun hb]
  have hs : String.mk (m :: run) = s := by rw [← hdata]
  rw [hs]

/-- A marker-free string prefix is skipped. -/
theorem scan_skip_prepend {m : Char} {s t : String}
    (hs : ∀ c ∈ s.data, c ≠ m) :
    scanTokens m (s ++ t).data = scanTokens m t.data := by
  rw [String.data_append]
  exact scanTokens_skip _ hs

/-- Characters of the `#name` placeholder, for marker disjointness. -/
theorem attr_name_chars {pre attr : String} {m : Char}
    (hp : wfName pre) (ha : wfName attr) (hm : isTokenChar m = false)
    (hhash : m ≠ '#') : ∀ c ∈ ("#" ++ pre ++ "_" ++ attr).data, c ≠ m := by
  rw [data_attr_name]
  intro c hc
  rcases List.mem_cons.mp hc with rfl | hc
  · exact hhash.symm
  · exact wf_ne (nameRun_all hp ha) hm c hc

/-- Characters of the `:name` placeholder, for marker disjointness. -/
theorem attr_value_chars {pre attr : String} {m : Char}
    (hp : wfName pre) (ha : wfName attr) (hm : isTokenChar m = false)
    (hcolon : m ≠ ':') : ∀ c ∈ (":" ++ pre ++ "_" ++ attr).data, c ≠ m := by
  rw [data_attr_value]
  intro c hc
  rcases List.mem_cons.mp hc with rfl | hc
  · exact hcolon.symm
  · exact wf_ne (nameRun_all hp ha) hm c hc

theorem data_attr_value_ext (pre attr d : String) :
    ((":" ++ pre ++ "_" ++ attr) ++ d).data =
      ':' :: (nameRun pre attr ++ d.data) := by
  simp [nameRun]

theorem attr_value_ext_chars {pre attr d : String} {m : Char}
    (hp : wfName pre) (ha : wfName attr) (hd : d.data.all isTokenChar = true)
    (hm : isTokenChar m = false) (hcolon : m ≠ ':') :
    ∀ c ∈ ((":" ++ pre ++ "_" ++ attr) ++ d).data, c ≠ m := by
  rw [data_attr_value_ext]
  intro c hc
  rcases List.mem_cons.mp hc with rfl | hc
  · exact hcolon.symm
  · rcases List.mem_append.mp hc with hc | hc
    · exact wf_ne (nameRun_all hp ha) hm c hc
    · exact wf_ne hd hm c hc

/-- Hash tokens of a clause `#name OP :value`. -/
theorem shape_binop_hash {pre attr op : String}
    (hp : wfName pre) (ha : wfName attr)
    (hop : ∀ c ∈ op.data, c ≠ '#')
    (hb : tokenBoundary '#' op.data) (hopne : op.data ≠ []) :
    scanTokens '#' (("#" ++ pre ++ "_" ++ attr) ++ op ++
        (":" ++ pre ++ "_" ++ attr)).data = ["#" ++ pre ++ "_" ++ attr] := by
  rw [String.append_assoc]
  rw [scan_token_prepend (data_attr_name pre attr) (nameRun_all hp ha) ?_]
  · rw [String.data_append, scanTokens_skip _ hop,
      scanTokens_no_marker (attr_value_chars hp ha (by decide) (by decide))]
  · rw [String.data_append]
    exact tokenBoundary_append _ hb hopne

/-- Colon tokens of a clause `#name OP :value`. -/
theorem shape_binop_colon {pre attr op : String}
    (hp : wfName pre) (ha : wfName attr)
    (hop : ∀ c ∈ op.data, c ≠ ':') :
    scanTokens ':' (("#" ++ pre ++ "_" ++ attr) ++ op ++
        (":" ++ pre ++ "_" ++ attr)).data = [":" ++ pre ++ "_" ++ attr] := by
  rw [scan_skip_prepend ?_]
  · exact scan_token_string (data_attr_value pre attr) (nameRun_all hp ha)
  · rw [String.data_append]
    intro c hc
    rcases List.mem_append.mp hc with hc | hc
    · exact attr_name_chars hp ha (by decide) (by decide) c hc
    · exact hop c hc

/-- Hash tokens of a BETWEEN clause. -/
theorem shape_between_hash {pre attr : String}
    (hp : wfName pre) (ha : wfName attr) :
    scanTokens '#' (("#" ++ pre ++ "_" ++ attr) ++ " BETWEEN " ++
        ((":" ++ pre ++ "_" ++ attr) ++ "1") ++ " AND " ++
        ((":" ++ pre ++ "_" ++ attr) ++ "2")).data =
      ["#" ++ pre ++ "_" ++ attr] := by
  rw [String.append_assoc _ " AND " _,
    String.append_assoc _ ((":" ++ pre ++ "_" ++ attr) ++ "1") _,
    String.append_assoc _ " BETWEEN " _]
  rw [scan_token_prepend (data_attr_name pre attr) (nameRun_all hp ha) ?_]
  · rw [String.data_append, scanTokens_skip _ (by decide)]
    rw [String.data_append,
      scanTokens_skip _ (attr_value_ext_chars hp ha (by decide) (by decide) (by decide))]
    rw [String.data_append, scanTokens_skip _ (by decide)]
    rw [scanTokens_no_marker
      (attr_value_ext_chars hp ha (by decide) (by decide) (by decide))]
  · rw [String.data_append]
    exact tokenBoundary_append _ (by exact ⟨by decide, by decide⟩) (by decide)

/-- Colon tokens of a BETWEEN clause: the two numbered value
placeholders, in order. -/
theorem shape_between_colon {pre attr : String}
    (hp : wfName pre) (ha : wfName attr) :
    scanTokens ':' (("#" ++ pre ++ "_" ++ attr) ++ " BETWEEN " ++
        ((":" ++ pre ++ "_" ++ attr) ++ "1") ++ " AND " ++
        ((":" ++ pre ++ "_" ++ attr) ++ "2")).data =
      [(":" ++ pre ++ "_" ++ attr) ++ "1", (":" ++ pre ++ "_" ++ attr) ++ "2"] := by
  rw [String.append_assoc _ " AND " _,
    String.append_assoc _ ((":" ++ pre ++ "_" ++ attr) ++ "1") _,
    String.append_assoc _ " BETWEEN " _]
  rw [scan_skip_prepend (attr_name_chars hp ha (by decide) (by decide))]
  rw [scan_skip_prepend (by decide)]
  rw [scan_token_prepend (data_attr_value_ext pre attr "1") ?run1 ?_]
  · rw [scan_skip_prepend (by decide)]
    rw [scan_token_string (data_attr_value_ext pre attr "2") ?run2]
    case run2 =>
      simp only [List.all_append, Bool.and_eq_true]
      exact ⟨nameRun_all hp ha, by decide⟩
  case run1 =>
    simp only [List.all_append, Bool.and_eq_true]
    exact ⟨nameRun_all hp ha, by decide⟩
  · rw [String.data_append]
    exact tokenBoundary_append _ (by exact ⟨by decide, by decide⟩) (by decide)

/-- Hash tokens of a function clause `fn(#name, :value)`. -/
theorem shape_fn2_hash {pre attr f : String}
    (hp : wfName pre) (ha : wfName attr)
    (hf : ∀ c ∈ f.data, c ≠ '#') :
    scanTokens '#' (f ++ ("#" ++ pre ++ "_" ++ attr) ++ ", " ++
        (":" ++ pre ++ "_" ++ attr) ++ ")").data =
      ["#" ++ pre ++ "_" ++ attr] := by
  rw [String.append_assoc _ (":" ++ pre ++ "_" ++ attr) _,
    String.append_assoc _ ", " _,
    String.append_assoc _ ("#" ++ pre ++ "_" ++ attr) _]
  rw [scan_skip_prepend hf]
  rw [scan_token_prepend (data_attr_name pre attr) (nameRun_all hp ha) ?_]
  · rw [@scan_skip_prepend '#' ", " _ (by decide)]
    rw [String.data_append,
      scanTokens_skip _ (@attr_value_chars pre attr '#' hp ha (by decide) (by decide))]
    rw [@scanTokens_no_marker '#' ")".data (by decide)]
  · rw [String.data_append]
    exact tokenBoundary_append _ (by exact ⟨by decide, by decide⟩) (by decide)

/-- Colon tokens of a function clause `fn(#name, :value)`. -/
theorem shape_fn2_colon {pre attr f : String}
    (hp : wfName pre) (ha : wfName attr)
    (hf : ∀ c ∈ f.data, c ≠ ':') :
    scanTokens ':' (f ++ ("#" ++ pre ++ "_" ++ attr) ++ ", " ++
        (":" ++ pre ++ "_" ++ attr) ++ ")").data =
      [":" ++ pre ++ "_" ++ attr] := by
  rw [String.append_assoc _ (":" ++ pre ++ "_" ++ attr) _,
    String.append_assoc _ ", " _,
    String.append_assoc _ ("#" ++ pre ++ "_" ++ attr) _]
  rw [scan_skip_prepend hf]
  rw [scan_skip_prepend (attr_name_chars hp ha (by decide) (by decide))]
  rw [scan_skip_prepend (by decide)]
  rw [scan_token_prepend (data_attr_value pre attr) (nameRun_all hp ha) ?_]
  · rw [scanTokens_no_marker (by decide)]
  · exact ⟨by decide, by decide⟩

/-- Hash tokens of an existence clause `fn(#name)`. -/
theorem shape_fn1_hash {pre attr f : String}
    (hp : wfName pre) (ha : wfName attr)
    (hf : ∀ c ∈ f.data, c ≠ '#') :
    scanTokens '#' (f ++ ("#" ++ pre ++ "_" ++ attr) ++ ")").data =
      ["#" ++ pre ++ "_" ++ attr] := by
  rw [String.append_assoc _ ("#" ++ pre ++ "_" ++ attr) _]
  rw [scan_skip_prepend hf]
  rw [scan_token_prepend (data_attr_name pre attr) (nameRun_all hp ha) ?_]
  · rw [scanTokens_no_marker (by decide)]
  · exact ⟨by decide, by decide⟩

/-- Colon tokens of an existence clause `fn(#name)`: none. -/
theorem shape_fn1_colon {pre attr f : String}
    (hp : wfName pre) (ha : wfName attr)
    (hf : ∀ c ∈ f.data, c ≠ ':') :
    scanTokens ':' (f ++ ("#" ++ pre ++ "_" ++ attr) ++ ")").data = [] := by
  rw [String.append_assoc _ ("#" ++ pre ++ "_" ++ attr) _]
  rw [scan_skip_prepend hf]
  rw [scan_skip_prepend (attr_name_chars hp ha (by decide) (by decide))]
  exact scanTokens_no_marker (by decide)

/-- Scanning a separator-joined clause list yields the concatenation of
the clause token lists, provided the separator begins with a safe
character and contains no marker. -/
theorem scan_joinSep {m : Char} {sep : String}
    (hb : tokenBoundary m sep.data) (hne : sep.data ≠ [])
    (hsep : ∀ c ∈ sep.data, c ≠ m) (cs : List String) :
    scanTokens m (joinSep sep cs).data =
      (cs.map (fun c => scanTokens m c.data)).flatten := by
  induction cs with
  | nil => simp [joinSep, scanTokens_nil]
  | cons c rest ih =>
    match rest with
    | [] => simp [joinSep]
    | c₂ :: rest₂ =>
      show scanTokens m ((c ++ sep ++ joinSep sep (c₂ :: rest₂))).data = _
      rw [String.append_assoc]
      rw [String.data_append, scanTokens_append _ ?_]
      · rw [String.data_append, scanTokens_skip _ hsep, ih]
        simp
      · rw [String.data_append]
        exact tokenBoundary_append _ hb hne

theorem data_hash_name (k : String) : ("#" ++ k).data = '#' :: k.data := by
  simp

theorem data_colon_name (k : String) : (":" ++ k).data = ':' :: k.data := by
  simp

/-- Hash tokens of a filter clause: always exactly the one name
placeholder of its attribute. -/
theorem filter_clause_hash {pre attr : String} (e : Val)
    (hp : wfName pre) (ha : wfName attr) :
    scanTokens '#' ((filterEntryParts pre attr e).1).data =
      ["#" ++ pre ++ "_" ++ attr] := by
  cases hop : filterOpOf e
  all_goals simp only [filterEntryParts, hop]
  · exact shape_binop_hash hp ha (by decide) (by exact ⟨by decide, by decide⟩) (by decide)
  · exact shape_binop_hash hp ha (by decide) (by exact ⟨by decide, by decide⟩) (by decide)
  · exact shape_binop_hash hp ha (by decide) (by exact ⟨by decide, by decide⟩) (by decide)
  · exact shape_binop_hash hp ha (by decide) (by exact ⟨by decide, by decide⟩) (by decide)
  · exact shape_binop_hash hp ha (by decide) (by exact ⟨by decide, by decide⟩) (by decide)
  · exact shape_binop_hash hp ha (by decide) (by exact ⟨by decide, by decide⟩) (by decide)
  · exact shape_between_hash hp ha
  · exact shape_fn2_hash hp ha (by decide)
  · exact shape_fn2_hash hp ha (by decide)
  · exact shape_fn2_hash hp ha (by decide)
  · exact shape_fn1_hash hp ha (by decide)
  · exact shape_fn1_hash hp ha (by decide)
  · exact shape_binop_hash hp ha (by decide) (by exact ⟨by decide, by decide⟩) (by decide)

/-- Colon tokens of a filter clause: exactly the keys of the value-map
assignments of that clause, in order. -/
theorem filter_clause_colon {pre attr : String} (e : Val)
    (hp : wfName pre) (ha : wfName attr) :
    scanTokens ':' ((filterEntryParts pre attr e).1).data =
      ((filterEntryParts pre attr e).2).map Prod.fst := by
  cases hop : filterOpOf e
  all_goals simp only [filterEntryParts, hop, List.map_cons, List.map_nil]
  · exact shape_binop_colon hp ha (by decide)
  · exact shape_binop_colon hp ha (by decide)
  · exact shape_binop_colon hp ha (by decide)
  · exact shape_binop_colon hp ha (by decide)
  · exact shape_binop_colon hp ha (by decide)
  · exact shape_binop_colon hp ha (by decide)
  · exact shape_between_colon hp ha
  · exact shape_fn2_colon hp ha (by decide)
  · exact shape_fn2_colon hp ha (by decide)
  · exact shape_fn2_colon hp ha (by decide)
  · exact shape_fn1_colon hp ha (by decide)
  · exact shape_fn1_colon hp ha (by decide)
  · exact shape_binop_colon hp ha (by decide)

/-- Hash tokens of a plain SET clause `#key = :key`. -/
theorem set_clause_plain_hash {k : String} (hk : wfName k) :
    scanTokens '#' (("#" ++ k ++ " = " ++ (":" ++ k))).data = ["#" ++ k] := by
  rw [String.append_assoc _ " = " _]
  rw [scan_token_prepend (data_hash_name k) hk ?_]
  · rw [@scan_skip_prepend '#' " = " _ (by decide)]
    rw [scanTokens_no_marker ?_]
    intro c hc
    rw [data_colon_name] at hc
    rcases List.mem_cons.mp hc with rfl | hc
    · decide
    · exact wf_ne hk (by decide) c hc
  · rw [String.data_append]
    exact tokenBoundary_append _ (by exact ⟨by decide, by decide⟩) (by decide)

/-- Colon tokens of a plain SET clause `#key = :key`. -/
theorem set_clause_plain_colon {k : String} (hk : wfName k) :
    scanTokens ':' (("#" ++ k ++ " = " ++ (":" ++ k))).data = [":" ++ k] := by
  rw [scan_skip_prepend ?_]
  · exact scan_token_string (data_colon_name k) hk
  · rw [String.data_append, data_hash_name]
    intro c hc
    rcases List.mem_append.mp hc with hc | hc
    · rcases List.mem_cons.mp hc with rfl | hc
      · decide
      · exact wf_ne hk (by decide) c hc
    · exact (by decide : ∀ x ∈ " = ".data, x ≠ ':') c hc

theorem mk_hash_name (k : String) : String.mk ('#' :: k.data) = "#" ++ k :=
  String.ext (by simp)

/-- Hash tokens of an `if_not_exists` SET clause
`#key = if_not_exists(#key, :key)`: the name placeholder twice. -/
theorem set_clause_ine_hash {k : String} (hk : wfName k) :
    scanTokens '#' (("#" ++ k ++ " = " ++
        ("if_not_exists(#" ++ k ++ ", " ++ (":" ++ k) ++ ")"))).data =
      ["#" ++ k, "#" ++ k] := by
  rw [String.append_assoc _ " = " _]
  rw [scan_token_prepend (data_hash_name k) hk ?_]
  · rw [@scan_skip_prepend '#' " = " _ (by decide)]
    rw [String.append_assoc _ (":" ++ k) _, String.append_assoc _ ", " _,
      String.append_assoc "if_not_exists(#" k _]
    rw [String.data_append]
    have hlit : "if_not_exists(#".data = "if_not_exists(".data ++ ['#'] := rfl
    rw [hlit, List.append_assoc, scanTokens_skip _ (by decide),
      List.singleton_append, String.data_append]
    rw [scanTokens_token hk ?_]
    · rw [mk_hash_name, scanTokens_no_marker ?_]
      rw [String.data_append]
      intro c hc
      rcases List.mem_append.mp hc with hc | hc
      · exact (by decide : ∀ x ∈ ", ".data, x ≠ '#') c hc
      · rw [String.data_append, data_colon_name] at hc
        rcases List.mem_append.mp hc with hc | hc
        · rcases List.mem_cons.mp hc with rfl | hc
          · decide
          · exact wf_ne hk (by decide) c hc
        · exact (by decide : ∀ x ∈ ")".data, x ≠ '#') c hc
    · rw [String.data_append]
      exact tokenBoundary_append _ (by exact ⟨by decide, by decide⟩) (by decide)
  · rw [String.data_append]
    exact tokenBoundary_append _ (by exact ⟨by decide, by decide⟩) (by decide)

/-- Colon tokens of an `if_not_exists` SET clause. -/
theorem set_clause_ine_colon {k : String} (hk : wfName k) :
    scanTokens ':' (("#" ++ k ++ " = " ++
        ("if_not_exists(#" ++ k ++ ", " ++ (":" ++ k) ++ ")"))).data =
      [":" ++ k] := by
  rw [scan_skip_prepend ?_]
  · rw [String.append_assoc _ (":" ++ k) _, String.append_assoc _ ", " _,
      String.append_assoc "if_not_exists(#" k _]
    rw [scan_skip_prepend (by decide)]
    rw [scan_skip_prepend (wf_ne hk (by decide))]
    rw [@scan_skip_prepend ':' ", " _ (by decide)]
    rw [scan_token_prepend (data_colon_name k) hk ?_]
    · rw [scanTokens_no_marker (by decide)]
    · exact ⟨by decide, by decide⟩
  · rw [String.data_append, data_hash_name]
    intro c hc
    rcases List.mem_append.mp hc with hc | hc
    · rcases List.mem_cons.mp hc with rfl | hc
      · decide
      · exact wf_ne hk (by decide) c hc
    · exact (by decide : ∀ x ∈ " = ".data, x ≠ ':') c hc

/-- Hash tokens of a REMOVE clause `#key`. -/
theorem remove_clause_hash {k : String} (hk : wfName k) :
    scanTokens '#' ("#" ++ k).data = ["#" ++ k] :=
  scan_token_string (data_hash_name k) hk

/-- Colon tokens of a REMOVE clause `#key`: none. -/
theorem remove_clause_colon {k : String} (hk : wfName k) :
    scanTokens ':' ("#" ++ k).data = [] := by
  rw [scanTokens_no_marker ?_]
  rw [data_hash_name]
  intro c hc
  rcases List.mem_cons.mp hc with rfl | hc
  · decide
  · exact wf_ne hk (by decide) c hc

theorem mem_jsInsert_keys {α : Type} {m : List (String × α)} {k t : String}
    {v : α} : t ∈ (jsInsert m k v).map Prod.fst ↔ t = k ∨ t ∈ m.map Prod.fst := by
  induction m with
  | nil => simp [jsInsert]
  | cons p rest ih =>
    unfold jsInsert
    by_cases hp : p.1 = k
    · rw [if_pos hp]
      subst hp
      simp
    · rw [if_neg hp]
      simp only [List.map_cons, List.mem_cons, ih]
      constructor
      · rintro (rfl | h) <;> tauto
      · rintro (rfl | h) <;> tauto

theorem foldl_insert_keys_mem {α β : Type} (f : β → String) (g : β → α)
    (l : List β) (m₀ : List (String × α)) (t : String) :
    t ∈ (l.foldl (fun m e => jsInsert m (f e) (g e)) m₀).map Prod.fst ↔
      (∃ e ∈ l, t = f e) ∨ t ∈ m₀.map Prod.fst := by
  induction l generalizing m₀ with
  | nil => simp
  | cons e rest ih =>
    rw [List.foldl_cons, ih]
    rw [mem_jsInsert_keys]
    constructor
    · rintro (⟨e', he', rfl⟩ | rfl | ht)
      · exact Or.inl ⟨e', List.mem_cons_of_mem _ he', rfl⟩
      · exact Or.inl ⟨e, List.mem_cons_self _ _, rfl⟩
      · exact Or.inr ht
    · rintro (⟨e', he', rfl⟩ | ht)
      · rcases List.mem_cons.mp he' with rfl | he'
        · exact Or.inr (Or.inl rfl)
        · exact Or.inl ⟨e', he', rfl⟩
      · exact Or.inr (Or.inr ht)

theorem foldl_pair_insert_keys_mem {α : Type} (ins : List (String × α))
    (m₀ : List (String × α)) (t : String) :
    t ∈ (ins.foldl (fun m p => jsInsert m p.1 p.2) m₀).map Prod.fst ↔
      (∃ p ∈ ins, t = p.1) ∨ t ∈ m₀.map Prod.fst :=
  foldl_insert_keys_mem Prod.fst Prod.snd ins m₀ t

/-- The clause list accumulated by the filter fold: one clause per filter
entry, in order. -/
theorem gfe_fold_clauses (pre : String) (fs : List (String × Val))
    (acc : List (String × String) × List (String × Val) × List String) :
    (fs.foldl (gfeStep pre) acc).2.2 =
      acc.2.2 ++ fs.map (fun e => (filterEntryParts pre e.1 e.2).1) := by
  induction fs generalizing acc with
  | nil => simp
  | cons e rest ih =>
    rw [List.foldl_cons, ih]
    simp [gfeStep]

/-- Keys of the attribute-name map accumulated by the filter fold. -/
theorem gfe_fold_names_mem (pre : String) (fs : List (String × Val))
    (acc : List (String × String) × List (String × Val) × List String)
    (t : String) :
    t ∈ (fs.foldl (gfeStep pre) acc).1.map Prod.fst ↔
      (∃ e ∈ fs, t = "#" ++ pre ++ "_" ++ e.1) ∨ t ∈ acc.1.map Prod.fst := by
  induction fs generalizing acc with
  | nil => simp
  | cons e rest ih =>
    rw [List.foldl_cons, ih]
    show _ ∨ t ∈ (jsInsert acc.1 ("#" ++ pre ++ "_" ++ e.1) e.1).map Prod.fst ↔ _
    rw [mem_jsInsert_keys]
    constructor
    · rintro (⟨e', he', rfl⟩ | rfl | ht)
      · exact Or.inl ⟨e', List.mem_cons_of_mem _ he', rfl⟩
      · exact Or.inl ⟨e, List.mem_cons_self _ _, rfl⟩
      · exact Or.inr ht
    · rintro (⟨e', he', rfl⟩ | ht)
      · rcases List.mem_cons.mp he' with rfl | he'
        · exact Or.inr (Or.inl rfl)
        · exact Or.inl ⟨e', he', rfl⟩
      · exact Or.inr (Or.inr ht)

/-- Keys of the attribute-value map accumulated by the filter fold. -/
theorem gfe_fold_values_mem (pre : String) (fs : List (String × Val))
    (acc : List (String × String) × List (String × Val) × List String)
    (t : String) :
    t ∈ (fs.foldl (gfeStep pre) acc).2.1.map Prod.fst ↔
      (∃ e ∈ fs, t ∈ ((filterEntryParts pre e.1 e.2).2).map Prod.fst) ∨
        t ∈ acc.2.1.map Prod.fst := by
  induction fs generalizing acc with
  | nil => simp
  | cons e rest ih =>
    rw [List.foldl_cons, ih]
    show _ ∨ t ∈ ((filterEntryParts pre e.1 e.2).2.foldl
      (fun m p => jsInsert m p.1 p.2) acc.2.1).map Prod.fst ↔ _
    rw [foldl_pair_insert_keys_mem]
    constructor
    · rintro (⟨e', he', ht⟩ | ⟨p, hp, rfl⟩ | ht)
      · exact Or.inl ⟨e', List.mem_cons_of_mem _ he', ht⟩
      · exact Or.inl ⟨e, List.mem_cons_self _ _, List.mem_map_of_mem Prod.fst hp⟩
      · exact Or.inr ht
    · rintro (⟨e', he', ht⟩ | ht)
      · rcases List.mem_cons.mp he' with rfl | he'
        · rcases List.mem_map.mp ht with ⟨p, hp, rfl⟩
          exact Or.inr (Or.inl ⟨p, hp, rfl⟩)
        · exact Or.inl ⟨e', he', ht⟩
      · exact Or.inr (Or.inr ht)

/-- The tokens of an optional expression string (no string, no tokens). -/
def optTokens (m : Char) (s : Option String) : List String :=
  match s with
  | none => []
  | some s => scanTokens m s.data

/-- Placeholder completeness for `generateFilterExpression` (also used for
key conditions, which are produced by the same generator under the `key`
namespace): the `#` tokens of the produced expression are exactly the
keys of the attribute-name map, and the `:` tokens exactly the keys of
the attribute-value map. -/
theorem gfe_placeholder_completeness (pre : String)
    (filters : Option (List (String × Val))) (hp : wfName pre)
    (hfs : ∀ e ∈ filters.getD [], wfName e.1) :
    (∀ t, t ∈ optTokens '#'
        (generateFilterExpression filters pre).FilterExpression ↔
      t ∈ (generateFilterExpression filters pre).ExpressionAttributeNames.map
        Prod.fst) ∧
    (∀ t, t ∈ optTokens ':'
        (generateFilterExpression filters pre).FilterExpression ↔
      t ∈ (generateFilterExpression filters pre).ExpressionAttributeValues.map
        Prod.fst) := by
  match filters with
  | none => simp [generateFilterExpression, optTokens]
  | some fs =>
    simp only [Option.getD] at hfs
    unfold generateFilterExpression
    by_cases hlen : jsLengthIsZero fs
    · simp [hlen, optTokens]
    · simp only [hlen, if_neg, Bool.false_eq_true, not_false_eq_true, optTokens]
      constructor
      · intro t
        show t ∈ scanTokens '#' (joinSep " AND "
          ((fs.foldl (gfeStep pre) ([], [], [])).2.2)).data ↔ _
        rw [scan_joinSep (by exact ⟨by decide, by decide⟩) (by decide) (by decide)]
        rw [gfe_fold_clauses]
        rw [List.nil_append, List.map_map]
        rw [gfe_fold_names_mem]
        simp only [List.map_nil, List.not_mem_nil, or_false]
        rw [List.mem_flatten]
        constructor
        · rintro ⟨l, hl, htl⟩
          rcases List.mem_map.mp hl with ⟨e, he, rfl⟩
          rw [Function.comp_apply, filter_clause_hash e.2 hp (hfs e he)] at htl
          rcases List.mem_singleton.mp htl with rfl
          exact ⟨e, he, rfl⟩
        · rintro ⟨e, he, rfl⟩
          refine ⟨_, List.mem_map_of_mem _ he, ?_⟩
          rw [Function.comp_apply, filter_clause_hash e.2 hp (hfs e he)]
          exact List.mem_singleton_self _
      · intro t
        show t ∈ scanTokens ':' (joinSep " AND "
          ((fs.foldl (gfeStep pre) ([], [], [])).2.2)).data ↔ _
        rw [scan_joinSep (by exact ⟨by decide, by decide⟩) (by decide) (by decide)]
        rw [gfe_fold_clauses]
        rw [List.nil_append, List.map_map]
        rw [gfe_fold_values_mem]
        simp only [List.map_nil, List.not_mem_nil, or_false]
        rw [List.mem_flatten]
        constructor
        · rintro ⟨l, hl, htl⟩
          rcases List.mem_map.mp hl with ⟨e, he, rfl⟩
          rw [Function.comp_apply, filter_clause_colon e.2 hp (hfs e he)] at htl
          exact ⟨e, he, htl⟩
        · rintro ⟨e, he, ht⟩
          refine ⟨_, List.mem_map_of_mem _ he, ?_⟩
          rw [Function.comp_apply, filter_clause_colon e.2 hp (hfs e he)]
          exact ht

theorem setClauseFor_hash_mem {k : String} (dno : List String)
    (hk : wfName k) (t : String) :
    t ∈ scanTokens '#' (setClauseFor dno k).data ↔ t = "#" ++ k := by
  simp only [setClauseFor]
  split
  · rw [set_clause_ine_hash hk]
    simp
  · rw [set_clause_plain_hash hk]
    simp

theorem setClauseFor_colon {k : String} (dno : List String) (hk : wfName k) :
    scanTokens ':' (setClauseFor dno k).data = [":" ++ k] := by
  simp only [setClauseFor]
  split
  · exact set_clause_ine_colon hk
  · exact set_clause_plain_colon hk

theorem set_component_hash_mem (patch : List (String × Val))
    (dno : List String) (hpatch : ∀ e ∈ patch, wfName e.1) (t : String) :
    t ∈ scanTokens '#'
        (("SET " ++ joinSep ", " (setClauses patch dno))).data ↔
      ∃ e ∈ patch, (!isUndef e.2 && !isNull e.2) = true ∧ t = "#" ++ e.1 := by
  rw [scan_skip_prepend (by decide)]
  rw [scan_joinSep (by exact ⟨by decide, by decide⟩) (by decide) (by decide)]
  unfold setClauses
  rw [List.map_map, List.mem_flatten]
  constructor
  · rintro ⟨l, hl, htl⟩
    rcases List.mem_map.mp hl with ⟨e, he, rfl⟩
    rw [List.mem_filter] at he
    rw [Function.comp_apply, setClauseFor_hash_mem dno (hpatch e he.1)] at htl
    exact ⟨e, he.1, he.2, htl⟩
  · rintro ⟨e, he, hc, rfl⟩
    refine ⟨_, List.mem_map_of_mem _ (List.mem_filter.mpr ⟨he, hc⟩), ?_⟩
    rw [Function.comp_apply, setClauseFor_hash_mem dno (hpatch e he)]

theorem set_component_colon_mem (patch : List (String × Val))
    (dno : List String) (hpatch : ∀ e ∈ patch, wfName e.1) (t : String) :
    t ∈ scanTokens ':'
        (("SET " ++ joinSep ", " (setClauses patch dno))).data ↔
      ∃ e ∈ patch, (!isUndef e.2 && !isNull e.2) = true ∧ t = ":" ++ e.1 := by
  rw [scan_skip_prepend (by decide)]
  rw [scan_joinSep (by exact ⟨by decide, by decide⟩) (by decide) (by decide)]
  unfold setClauses
  rw [List.map_map, List.mem_flatten]
  constructor
  · rintro ⟨l, hl, htl⟩
    rcases List.mem_map.mp hl with ⟨e, he, rfl⟩
    rw [List.mem_filter] at he
    rw [Function.comp_apply, setClauseFor_colon dno (hpatch e he.1)] at htl
    exact ⟨e, he.1, he.2, List.mem_singleton.mp htl⟩
  · rintro ⟨e, he, hc, rfl⟩
    refine ⟨_, List.mem_map_of_mem _ (List.mem_filter.mpr ⟨he, hc⟩), ?_⟩
    rw [Function.comp_apply, setClauseFor_colon dno (hpatch e he)]
    exact List.mem_singleton_self _

theorem remove_component_hash_mem (patch : List (String × Val))
    (hpatch : ∀ e ∈ patch, wfName e.1) (t : String) :
    t ∈ scanTokens '#'
        (("REMOVE " ++ joinSep ", " (removeClauses patch))).data ↔
      ∃ e ∈ patch, isNull e.2 = true ∧ t = "#" ++ e.1 := by
  rw [scan_skip_prepend (by decide)]
  rw [scan_joinSep (by exact ⟨by decide, by decide⟩) (by decide) (by decide)]
  unfold removeClauses
  rw [List.map_map, List.mem_flatten]
  constructor
  · rintro ⟨l, hl, htl⟩
    rcases List.mem_map.mp hl with ⟨e, he, rfl⟩
    rw [List.mem_filter] at he
    rw [Function.comp_apply, remove_clause_hash (hpatch e he.1)] at htl
    exact ⟨e, he.1, he.2, List.mem_singleton.mp htl⟩
  · rintro ⟨e, he, hc, rfl⟩
    refine ⟨_, List.mem_map_of_mem _ (List.mem_filter.mpr ⟨he, hc⟩), ?_⟩
    rw [Function.comp_apply, remove_clause_hash (hpatch e he)]
    exact List.mem_singleton_self _

theorem remove_component_colon (patch : List (String × Val))
    (hpatch : ∀ e ∈ patch, wfName e.1) :
    scanTokens ':'
      (("REMOVE " ++ joinSep ", " (removeClauses patch))).data = [] := by
  rw [scan_skip_prepend (by decide)]
  rw [scan_joinSep (by exact ⟨by decide, by decide⟩) (by decide) (by decide)]
  unfold removeClauses
  rw [List.map_map, List.eq_nil_iff_forall_not_mem]
  intro x hx
  rw [List.mem_flatten] at hx
  obtain ⟨l, hl, hxl⟩ := hx
  rcases List.mem_map.mp hl with ⟨e, he, rfl⟩
  rw [List.mem_filter] at he
  rw [Function.comp_apply, remove_clause_colon (hpatch e he.1)] at hxl
  exact List.not_mem_nil x hxl

theorem names_keys_mem (patch : List (String × Val)) (t : String) :
    t ∈ (generateAttributeNames patch "").map Prod.fst ↔
      ∃ e ∈ patch, isUndef e.2 = false ∧ t = "#" ++ e.1 := by
  unfold generateAttributeNames
  rw [foldl_insert_keys_mem]
  simp only [List.map_nil, List.not_mem_nil, or_false]
  constructor
  · rintro ⟨e, he, rfl⟩
    rw [List.mem_filter] at he
    exact ⟨e, he.1, by simpa using he.2, by simp⟩
  · rintro ⟨e, he, hc, rfl⟩
    exact ⟨e, List.mem_filter.mpr ⟨he, by simpa using hc⟩, by simp⟩

theorem values_keys_mem (patch : List (String × Val)) (t : String) :
    t ∈ (generateAttributeValues patch "").map Prod.fst ↔
      ∃ e ∈ patch, (!isUndef e.2 && !isNull e.2) = true ∧ t = ":" ++ e.1 := by
  unfold generateAttributeValues
  rw [foldl_insert_keys_mem]
  simp only [List.map_nil, List.not_mem_nil, or_false]
  constructor
  · rintro ⟨e, he, rfl⟩
    rw [List.mem_filter] at he
    exact ⟨e, he.1, he.2, by simp⟩
  · rintro ⟨e, he, hc, rfl⟩
    exact ⟨e, List.mem_filter.mpr ⟨he, hc⟩, by simp⟩

theorem setClauses_eq_nil {patch : List (String × Val)} {dno : List String}
    (h : (setClauses patch dno).isEmpty = true) :
    ∀ e ∈ patch, (!isUndef e.2 && !isNull e.2) = false := by
  intro e he
  rw [List.isEmpty_iff] at h
  unfold setClauses at h
  rw [List.map_eq_nil_iff] at h
  by_contra hc
  rw [Bool.not_eq_false] at hc
  have : e ∈ patch.filter (fun e => !isUndef e.2 && !isNull e.2) :=
    List.mem_filter.mpr ⟨he, hc⟩
  rw [h] at this
  exact List.not_mem_nil e this

theorem removeClauses_eq_nil {patch : List (String × Val)}
    (h : (removeClauses patch).isEmpty = true) :
    ∀ e ∈ patch, isNull e.2 = false := by
  intro e he
  rw [List.isEmpty_iff] at h
  unfold removeClauses at h
  rw [List.map_eq_nil_iff] at h
  by_contra hc
  rw [Bool.not_eq_false] at hc
  have : e ∈ patch.filter (fun e => isNull e.2) :=
    List.mem_filter.mpr ⟨he, hc⟩
  rw [h] at this
  exact List.not_mem_nil e this

theorem ex_hash_combine (patch : List (String × Val))
    (f : String × Val → String) (t : String) :
    ((∃ e ∈ patch, (!isUndef e.2 && !isNull e.2) = true ∧ t = f e) ∨
        (∃ e ∈ patch, isNull e.2 = true ∧ t = f e)) ↔
      ∃ e ∈ patch, isUndef e.2 = false ∧ t = f e := by
  constructor
  · rintro (⟨e, he, hc, rfl⟩ | ⟨e, he, hc, rfl⟩)
    · refine ⟨e, he, ?_, rfl⟩
      revert hc
      cases isUndef e.2 <;> simp
    · refine ⟨e, he, ?_, rfl⟩
      cases h2 : e.2 <;> simp_all [isUndef, isNull]
  · rintro ⟨e, he, hu, rfl⟩
    by_cases hn : isNull e.2 = true
    · exact Or.inr ⟨e, he, hn, rfl⟩
    · refine Or.inl ⟨e, he, ?_, rfl⟩
      rw [hu]
      cases h : isNull e.2
      · rfl
      · exact absurd h hn

theorem ex_set_only (patch : List (String × Val))
    (f : String × Val → String) (t : String)
    (h2 : ∀ e ∈ patch, isNull e.2 = false) :
    (∃ e ∈ patch, (!isUndef e.2 && !isNull e.2) = true ∧ t = f e) ↔
      ∃ e ∈ patch, isUndef e.2 = false ∧ t = f e := by
  constructor
  · rintro ⟨e, he, hc, rfl⟩
    refine ⟨e, he, ?_, rfl⟩
    rw [h2 e he] at hc
    simpa using hc
  · rintro ⟨e, he, hu, rfl⟩
    refine ⟨e, he, ?_, rfl⟩
    rw [hu, h2 e he]
    rfl

theorem ex_rem_only (patch : List (String × Val))
    (f : String × Val → String) (t : String)
    (h1 : ∀ e ∈ patch, (!isUndef e.2 && !isNull e.2) = false) :
    (∃ e ∈ patch, isNull e.2 = true ∧ t = f e) ↔
      ∃ e ∈ patch, isUndef e.2 = false ∧ t = f e := by
  constructor
  · rintro ⟨e, he, hc, rfl⟩
    refine ⟨e, he, ?_, rfl⟩
    cases h2 : e.2 <;> simp_all [isUndef, isNull]
  · rintro ⟨e, he, hu, rfl⟩
    refine ⟨e, he, ?_, rfl⟩
    have := h1 e he
    rw [hu] at this
    revert this
    cases isNull e.2 <;> simp

/-- Placeholder completeness of the update expression: `#` tokens match
the attribute-name map and `:` tokens match the attribute-value map. -/
theorem gue_placeholder_completeness (patch : List (String × Val))
    (dno : List String) (hpatch : ∀ e ∈ patch, wfName e.1) :
    (∀ t, t ∈ scanTokens '#'
        (generateUpdateExpression patch dno).UpdateExpression.data ↔
      t ∈ (generateUpdateExpression patch dno).ExpressionAttributeNames.map
        Prod.fst) ∧
    (∀ t, t ∈ scanTokens ':'
        (generateUpdateExpression patch dno).UpdateExpression.data ↔
      t ∈ (generateUpdateExpression patch dno).ExpressionAttributeValues.map
        Prod.fst) := by
  have hscan : ∀ m : Char, tokenBoundary m " ".data → (∀ c ∈ " ".data, c ≠ m) →
      scanTokens m (generateUpdateExpression patch dno).UpdateExpression.data =
        ((if (setClauses patch dno).isEmpty then [] else
            [scanTokens m (("SET " ++ joinSep ", " (setClauses patch dno))).data]) ++
          (if (removeClauses patch).isEmpty then [] else
            [scanTokens m (("REMOVE " ++ joinSep ", " (removeClauses patch))).data])).flatten := by
    intro m hb hc
    show scanTokens m (joinSep " " _).data = _
    rw [scan_joinSep hb (by decide) hc]
    by_cases hs : (setClauses patch dno).isEmpty <;>
      by_cases hr : (removeClauses patch).isEmpty <;>
        simp [hs, hr]
  constructor
  · intro t
    rw [show (generateUpdateExpression patch dno).ExpressionAttributeNames =
      generateAttributeNames patch "" from rfl]
    rw [names_keys_mem]
    rw [hscan '#' (by exact ⟨by decide, by decide⟩) (by decide)]
    by_cases hs : (setClauses patch dno).isEmpty = true <;>
      by_cases hr : (removeClauses patch).isEmpty = true
    · -- both components empty: every entry is undefined, no tokens, no names
      rw [if_pos hs, if_pos hr]
      have h1 := setClauses_eq_nil hs
      have h2 := removeClauses_eq_nil hr
      simp only [List.nil_append, List.flatten_nil, List.not_mem_nil, false_iff]
      rintro ⟨e, he, hu, rfl⟩
      have := h1 e he
      rw [hu, h2 e he] at this
      simp at this
    · -- only the SET component
      rw [if_pos hs, if_neg hr]
      simp only [List.nil_append, List.cons_append, List.flatten_cons,
        List.flatten_nil, List.append_nil]
      rw [remove_component_hash_mem patch hpatch]
      exact ex_rem_only patch _ t (setClauses_eq_nil hs)
    · -- only the REMOVE component
      rw [if_neg hs, if_pos hr]
      simp only [List.nil_append, List.cons_append, List.flatten_cons,
        List.flatten_nil, List.append_nil]
      rw [set_component_hash_mem patch dno hpatch]
      exact ex_set_only patch _ t (removeClauses_eq_nil hr)
    · -- both components
      rw [if_neg hs, if_neg hr]
      simp only [List.nil_append, List.cons_append, List.flatten_cons,
        List.flatten_nil, List.append_nil, List.mem_append]
      rw [set_component_hash_mem patch dno hpatch,
        remove_component_hash_mem patch hpatch]
      exact ex_hash_combine patch _ t
  · intro t
    rw [show (generateUpdateExpression patch dno).ExpressionAttributeValues =
      generateAttributeValues patch "" from rfl]
    rw [values_keys_mem]
    rw [hscan ':' (by exact ⟨by decide, by decide⟩) (by decide)]
    by_cases hs : (setClauses patch dno).isEmpty = true <;>
      by_cases hr : (removeClauses patch).isEmpty = true
    · -- both components empty: no tokens, no defined non-null entries
      rw [if_pos hs, if_pos hr]
      have h1 := setClauses_eq_nil hs
      simp only [List.nil_append, List.flatten_nil, List.not_mem_nil, false_iff]
      rintro ⟨e, he, hc, rfl⟩
      rw [h1 e he] at hc
      exact Bool.false_ne_true hc
    · -- only the REMOVE component: it emits no value tokens
      rw [if_pos hs, if_neg hr]
      simp only [List.nil_append, List.cons_append, List.flatten_cons,
        List.flatten_nil, List.append_nil]
      rw [remove_component_colon patch hpatch]
      have h1 := setClauses_eq_nil hs
      simp only [List.not_mem_nil, false_iff]
      rintro ⟨e, he, hc, rfl⟩
      rw [h1 e he] at hc
      exact Bool.false_ne_true hc
    · -- only the SET component
      rw [if_neg hs, if_pos hr]
      simp only [List.nil_append, List.cons_append, List.flatten_cons,
        List.flatten_nil, List.append_nil]
      exact set_component_colon_mem patch dno hpatch t
    · -- both components
      rw [if_neg hs, if_neg hr]
      simp only [List.nil_append, List.cons_append, List.flatten_cons,
        List.flatten_nil, List.append_nil, List.mem_append]
      rw [remove_component_colon patch hpatch]
      simp only [List.not_mem_nil, or_false]
      exact set_component_colon_mem patch dno hpatch t

/-! ### Basic facts about the JS object model -/

theorem jsLookup_jsInsert_self {α : Type} (m : List (String × α)) (k : String)
    (v : α) : jsLookup (jsInsert m k v) k = some v := by
  induction m with
  | nil => simp [jsInsert, jsLookup]
  | cons p rest ih =>
    unfold jsInsert
    by_cases hp : p.1 = k
    · rw [if_pos hp]
      simp [jsLookup]
    · rw [if_neg hp]
      simp only [jsLookup, if_neg hp]
      exact ih

theorem jsLookup_jsInsert_ne {α : Type} (m : List (String × α)) {k a : String}
    (v : α) (hak : a ≠ k) : jsLookup (jsInsert m k v) a = jsLookup m a := by
  induction m with
  | nil => simp [jsInsert, jsLookup, Ne.symm hak]
  | cons p rest ih =>
    unfold jsInsert
    by_cases hp : p.1 = k
    · rw [if_pos hp]
      show (if k = a then _ else _) = _
      rw [if_neg (fun h => hak h.symm), jsLookup, if_neg (hp ▸ fun h => hak h.symm)]
    · rw [if_neg hp]
      show jsLookup _ a = _
      unfold jsLookup
      by_cases hpa : p.1 = a
      · rw [if_pos hpa, if_pos hpa]
      · rw [if_neg hpa, if_neg hpa]
        exact ih

/-! ### Well-formed key-value shapes for single-item operations -/

/-- A key-condition value that `resolveKeyValues` rejects: an expression
object carrying no `equals` field (`beginsWith`, `between`, ...). -/
def nonEqualsExpr : Val → Bool
  | .obj fields => (jsLookup fields "equals").isNone
  | _ => false

/-- A key-condition value that `resolveKeyValues` accepts: a plain
defined non-null value, or an `equals` expression object. -/
def keyValOk : Val → Bool
  | .null => false
  | .undef => false
  | .obj fields => (jsLookup fields "equals").isSome
  | _ => true

theorem resolveKeyValue_ok {v : Val} (hok : keyValOk v = true) :
    ∃ v', resolveKeyValue v = Except.ok v' :=
  match v, hok with
  | .str s, _ => ⟨.str s, rfl⟩
  | .num n, _ => ⟨.num n, rfl⟩
  | .bool b, _ => ⟨.bool b, rfl⟩
  | .list xs, _ => ⟨.list xs, rfl⟩
  | .null, h => by simp [keyValOk] at h
  | .undef, h => by simp [keyValOk] at h
  | .obj fields, h => by
      simp only [keyValOk, Option.isSome_iff_exists] at h
      obtain ⟨v', hv'⟩ := h
      exact ⟨v', by simp [resolveKeyValue, hv']⟩

theorem resolveKeyValue_bad {v : Val} (hbad : nonEqualsExpr v = true) :
    resolveKeyValue v = Except.error invalidKeyExpressionMessage :=
  match v, hbad with
  | .str _, h => by simp [nonEqualsExpr] at h
  | .num _, h => by simp [nonEqualsExpr] at h
  | .bool _, h => by simp [nonEqualsExpr] at h
  | .list _, h => by simp [nonEqualsExpr] at h
  | .null, h => by simp [nonEqualsExpr] at h
  | .undef, h => by simp [nonEqualsExpr] at h
  | .obj fields, h => by
      simp only [nonEqualsExpr, Option.isNone_iff_eq_none] at h
      simp [resolveKeyValue, h]

theorem resolveKeyValues_head_bad {k : String} {v : Val}
    (rest : List (String × Val)) (hbad : nonEqualsExpr v = true) :
    resolveKeyValues ((k, v) :: rest) = Except.error invalidKeyExpressionMessage := by
  unfold resolveKeyValues
  rw [List.foldlM_cons]
  simp only [resolveKeyValue_bad hbad]
  rfl

theorem resolveKeyValues_second_bad {k₁ k₂ : String} {v₁ v₂ : Val}
    (hok : keyValOk v₁ = true) (hbad : nonEqualsExpr v₂ = true) :
    resolveKeyValues [(k₁, v₁), (k₂, v₂)] =
      Except.error invalidKeyExpressionMessage := by
  unfold resolveKeyValues
  obtain ⟨v', hv'⟩ := resolveKeyValue_ok hok
  simp only [List.foldlM_cons, hv', resolveKeyValue_bad hbad]
  rfl

/-- Field access `e.a` on a validated record, as used inside key-rule
functions (`(e) => [e.a, e.b]`): a missing field reads as `undefined`. -/
def jsField (e : List (String × Val)) (a : String) : Val :=
  (jsLookup e a).getD Val.undef

/-- The two-index table of the spec scenarios:
`{table: {hash: pk, range: sk}, gsi1: {hash: type, range: sk}}`. -/
def exampleTable : TableDefinition :=
  { name := "app-table",
    indexes := [("table", { hashKey := "pk", rangeKey := some "sk" }),
                ("gsi1", { hashKey := "type", rangeKey := some "sk" })] }

/-- An entity over `exampleTable` with no key-derivation rules (the claims
about `resolveIndex` do not involve key derivation). -/
def exampleEntity : EntityDefinition :=
  { table := exampleTable, keys := [] }

/-- A table definition whose only index is named `table`, the shape the
error message of `defineTable` demands. -/
def tableIndexOnlyDefinition : TableDefinition :=
  { name := "app-table",
    indexes := [("table", { hashKey := "pk", rangeKey := some "sk" })] }

/-- A table definition whose only index is named `default`, lacking the
mandatory `table` index. -/
def defaultIndexOnlyDefinition : TableDefinition :=
  { name := "app-table",
    indexes := [("default", { hashKey := "pk", rangeKey := some "sk" })] }

/-- An entity whose `sk` rule composes two record fields, as in the
composite-omission scenario `sk: (e) => [e.a, e.b]`. -/
def pairKeyEntity : EntityDefinition :=
  { table := exampleTable,
    keys := [("sk", .fn (fun e => Val.list [jsField e "a", jsField e "b"]))] }

/-- `resolveIndex` after the forced `key.index = "table"` assignment:
with the primary index present and its hash key satisfied, resolution
succeeds against `table`, attaching the range key only when the original
key supplies it with a defined value. -/
theorem resolveIndex_forced (d : EntityDefinition) (key : List (String × Val))
    {h r : String} {hv : Val}
    (hidx : jsLookup d.table.indexes "table" =
      some { hashKey := h, rangeKey := some r })
    (hh : h ≠ "index") (hr : r ≠ "index")
    (hhv : jsLookup key h = some hv)
    (hnn : isNull hv = false) (hnu : isUndef hv = false) :
    resolveIndex d (forceTableIndex key) = Except.ok ("table",
      match jsLookup key r with
      | some rv => if isUndef rv then [(h, hv)] else jsInsert [(h, hv)] r rv
      | none => [(h, hv)]) := by
  have hname : resolveIndexName (forceTableIndex key) = "table" := by
    unfold resolveIndexName forceTableIndex
    rw [jsLookup_jsInsert_self]
    rfl
  unfold resolveIndex
  rw [hname, hidx]
  show (match jsLookup (forceTableIndex key) h with
    | none => _ | some hv => _) = _
  unfold forceTableIndex
  rw [jsLookup_jsInsert_ne _ _ hh, hhv]
  show (if (isNull hv || isUndef hv) = true then _ else _) = _
  rw [hnn, hnu]
  show (if (false : Bool) = true then _ else _) = _
  rw [if_neg (by simp)]
  simp [hname, jsLookup_jsInsert_ne _ _ hr]

/-- Whenever `resolveIndex` succeeds, the selected index is exactly the
one computed by the `key.index || "table"` default. -/
theorem resolveIndex_ok_name (d : EntityDefinition) (key : List (String × Val))
    {n : String} {rk : List (String × Val)}
    (hok : resolveIndex d key = Except.ok (n, rk)) : n = resolveIndexName key := by
  unfold resolveIndex at hok
  revert hok
  generalize resolveIndexName key = iname
  intro hok
  split at hok
  · cases hok
  · split at hok
    · cases hok
    · split at hok
      · cases hok
      · have := (Except.ok.injEq _ _).mp hok
        rw [Prod.mk.injEq] at this
        exact this.1.symm

/-! ### Claims -/

/-- C1 (counterexample): index resolution without an explicit `index`
field does not scan the declared indexes.  With indexes
`table{hash:pk}` and `gsi1{hash:type}`, the key spec `{type: "user"}`
satisfies the hash key of the later-declared `gsi1` — under the claim it
would resolve to `gsi1` — yet `resolveIndex` fails with the primary
index's hash-key error. -/
theorem C1_declaration_order_counterexample :
    resolveIndex exampleEntity [("type", Val.str "user")] =
      Except.error "No value found for hash key \"pk\"" ∧
    jsLookup [("type", Val.str "user")] "type" = some (Val.str "user") ∧
    jsLookup exampleEntity.table.indexes "gsi1" =
      some { hashKey := "type", rangeKey := some "sk" } :=
  ⟨rfl, rfl, rfl⟩

/-- C1 (amended): for every key specification without an explicit `index`
field, resolution targets only the primary index `table` (the default of
`key.index || "table"`): whenever it succeeds the selected index is
`table`, and in particular a spec containing both `pk` and `type` on the
two-index example table resolves to `table`. -/
theorem C1_resolveIndex_defaults_to_table :
    (∀ (d : EntityDefinition) (key : List (String × Val)) (n : String)
        (rk : List (String × Val)), jsLookup key "index" = none →
        resolveIndex d key = Except.ok (n, rk) → n = "table") ∧
    resolveIndex exampleEntity
        [("pk", Val.str "user#1"), ("type", Val.str "user")] =
      Except.ok ("table", [("pk", Val.str "user#1")]) := by
  refine ⟨?_, rfl⟩
  intro d key n rk hidx hok
  have hname : resolveIndexName key = "table" := by
    unfold resolveIndexName
    rw [hidx]
  exact (resolveIndex_ok_name d key hok).trans hname

/-- C1 (witness): the general table-default conclusion applied to the
spec scenario key carrying both `pk` and `type`. -/
theorem C1_resolveIndex_defaults_to_table_witness :
    jsLookup [("pk", Val.str "user#1"), ("type", Val.str "user")] "index" =
      none ∧
    ("table" : String) = "table" :=
  ⟨rfl, C1_resolveIndex_defaults_to_table.1 exampleEntity
    [("pk", Val.str "user#1"), ("type", Val.str "user")] "table"
    [("pk", Val.str "user#1")] rfl C1_resolveIndex_defaults_to_table.2⟩

/-- C5 (code bug): an absent filter spec yields no filter expression, but
the empty filter object does not take the early return — its guard reads
`.length` on a plain object — and so produces `FilterExpression` set to
the empty string, both from the filter generator and in the query bundle,
where the claim demands the field be omitted. -/
theorem C5_empty_filter_spec_empty_string :
    (generateFilterExpression none "filter").FilterExpression = none ∧
    (generateFilterExpression (some []) "filter").FilterExpression = some "" ∧
    (generateQueryExpression [("pk", Val.str "user#1")]
        (some [])).FilterExpression = some "" :=
  ⟨rfl, rfl, rfl⟩

/-- C6: an index named `table` is mandatory.  For every (non-empty-named)
table definition, `defineTable` throws the index error exactly when the
index map has no `table` entry and accepts the definition whenever it has
one; concretely, a `table`-only definition passes and a `default`-only
definition is rejected. -/
theorem C6_defineTable_requires_table_index :
    (∀ d : TableDefinition, d.name ≠ "" →
      ((jsLookup d.indexes "table").isNone = true →
        defineTable d =
          Except.error "Specify at least one index called \x27table\x27") ∧
      ((jsLookup d.indexes "table").isSome = true →
        defineTable d = Except.ok d)) ∧
    defineTable tableIndexOnlyDefinition = Except.ok tableIndexOnlyDefinition ∧
    defineTable defaultIndexOnlyDefinition =
      Except.error "Specify at least one index called \x27table\x27" := by
  refine ⟨?_, rfl, rfl⟩
  intro d hname
  constructor
  · intro hnone
    unfold defineTable
    rw [if_neg hname, if_pos hnone]
  · intro hsome
    have hne : ¬((jsLookup d.indexes "table").isNone = true) := by
      rw [Option.isNone_iff_eq_none]
      intro h
      rw [h] at hsome
      exact Bool.noConfusion hsome
    unfold defineTable
    rw [if_neg hname, if_neg hne]

/-- C6 (witness): the general acceptance conjunct applied to the
`table`-only definition. -/
theorem C6_defineTable_requires_table_index_witness :
    tableIndexOnlyDefinition.name ≠ "" ∧
    (jsLookup tableIndexOnlyDefinition.indexes "table").isSome = true ∧
    defineTable tableIndexOnlyDefinition = Except.ok tableIndexOnlyDefinition :=
  ⟨by decide, rfl,
    (C6_defineTable_requires_table_index.1 tableIndexOnlyDefinition
      (by decide)).2 rfl⟩

/-- C7: the update patch `{createdAt: "2024-01-01", name: null}` with
do-not-overwrite `["createdAt"]` produces exactly
`SET #createdAt = if_not_exists(#createdAt, :createdAt) REMOVE #name`;
in general every defined non-null patch entry contributes a SET clause
(wrapped in `if_not_exists` exactly when flagged) and every explicit-null
entry contributes a REMOVE clause. -/
theorem C7_update_expression_partitioning :
    (generateUpdateExpression
        [("createdAt", Val.str "2024-01-01"), ("name", Val.null)]
        ["createdAt"]).UpdateExpression =
      "SET #createdAt = if_not_exists(#createdAt, :createdAt) REMOVE #name" ∧
    (∀ (patch : List (String × Val)) (dno : List String) (k : String) (v : Val),
      (k, v) ∈ patch → isUndef v = false → isNull v = false →
      setClauseFor dno k ∈ setClauses patch dno) ∧
    (∀ (patch : List (String × Val)) (k : String) (v : Val),
      (k, v) ∈ patch → isNull v = true → ("#" ++ k) ∈ removeClauses patch) ∧
    (∀ (dno : List String) (k : String), dno.contains k = true →
      setClauseFor dno k =
        "#" ++ k ++ " = " ++
          ("if_not_exists(#" ++ k ++ ", " ++ (":" ++ k) ++ ")")) ∧
    (∀ (dno : List String) (k : String), dno.contains k = false →
      setClauseFor dno k = "#" ++ k ++ " = " ++ (":" ++ k)) := by
  refine ⟨rfl, ?_, ?_, ?_, ?_⟩
  · intro patch dno k v hmem hu hn
    exact List.mem_map_of_mem _
      (List.mem_filter.mpr ⟨hmem, by simp [hu, hn]⟩)
  · intro patch k v hmem hn
    refine List.mem_map_of_mem (fun e => "#" ++ e.1)
      (List.mem_filter.mpr ⟨hmem, ?_⟩)
    exact hn
  · intro dno k h
    simp only [setClauseFor]
    rw [if_pos h]
  · intro dno k h
    simp only [setClauseFor]
    rw [if_neg (by rw [h]; decide)]

/-- C7 (witness): the general clauses applied to the concrete patch of
the scenario. -/
theorem C7_update_expression_partitioning_witness :
    ("createdAt", Val.str "2024-01-01") ∈
        [("createdAt", Val.str "2024-01-01"), ("name", Val.null)] ∧
    isUndef (Val.str "2024-01-01") = false ∧
    isNull (Val.str "2024-01-01") = false ∧
    setClauseFor ["createdAt"] "createdAt" ∈
      setClauses [("createdAt", Val.str "2024-01-01"), ("name", Val.null)]
        ["createdAt"] ∧
    ("#" ++ "name") ∈
      removeClauses [("createdAt", Val.str "2024-01-01"), ("name", Val.null)] :=
  ⟨List.mem_cons_self _ _, rfl, rfl,
   C7_update_expression_partitioning.2.1 _ ["createdAt"] "createdAt"
     (Val.str "2024-01-01") (List.mem_cons_self _ _) rfl rfl,
   C7_update_expression_partitioning.2.2.1 _ "name" Val.null
     (List.mem_cons_of_mem _ (List.mem_cons_self _ _)) rfl⟩

/-- C8 (counterexample): composing the single-element list `[5]` joins
to the string `"5"`, which is not the same value as the bare number 5 —
the claim fails for non-string elements. -/
theorem C8_single_element_counterexample :
    buildValue (Val.list [Val.num 5]) ≠ buildValue (Val.num 5) := fun h =>
  Val.noConfusion h

/-- C8 (amended): composing `["a","b","c"]` yields `"a#b#c"`; composing a
single-element list equals composing the bare element for string
elements (a non-string element is stringified by the join, see the
counterexample); and list-valued operands in key conditions, filters and
key derivation are all joined through the same `#`-join (`buildValue` and
`joinParts`). -/
theorem C8_hash_join :
    buildValue (Val.list [Val.str "a", Val.str "b", Val.str "c"]) =
      Val.str "a#b#c" ∧
    (∀ s : String, buildValue (Val.list [Val.str s]) = buildValue (Val.str s)) ∧
    (∀ (k : String) (xs : List Val),
      resolveKeyValues [(k, Val.list xs)] =
        Except.ok [(k, Val.str (joinParts xs))]) ∧
    (∀ (pre attr : String) (xs : List Val),
      (filterEntryParts pre attr (Val.obj [("equals", Val.list xs)])).2 =
        [((":" ++ pre ++ "_" ++ attr), Val.str (joinParts xs))]) ∧
    (∀ (d : EntityDefinition) (data : List (String × Val)) (k : String)
        (parts : List Val),
      d.keys = [(k, KeyRule.value (Val.list parts))] →
      parts.any isUndef = false →
      parseKeys d data = [(k, Val.str (joinParts parts))]) := by
  refine ⟨rfl, fun s => rfl, fun k xs => rfl, fun pre attr xs => rfl, ?_⟩
  intro d data k parts hkeys hany
  unfold parseKeys
  rw [hkeys]
  simp only [List.foldl_cons, List.foldl_nil, parseKeysStep, runKeyRule]
  rw [hany, if_neg (by simp)]
  rfl

/-- C8 (witness): the key-derivation conjunct applied to a concrete
constant-list rule. -/
theorem C8_hash_join_witness :
    ({ table := exampleTable,
       keys := [("pk", KeyRule.value (Val.list [Val.str "user", Val.str "123"]))] }
        : EntityDefinition).keys =
      [("pk", KeyRule.value (Val.list [Val.str "user", Val.str "123"]))] ∧
    ([Val.str "user", Val.str "123"].any isUndef) = false ∧
    parseKeys
        { table := exampleTable,
          keys := [("pk", KeyRule.value (Val.list [Val.str "user", Val.str "123"]))] }
        [] =
      [("pk", Val.str (joinParts [Val.str "user", Val.str "123"]))] :=
  ⟨rfl, rfl, C8_hash_join.2.2.2.2 _ [] "pk" [Val.str "user", Val.str "123"] rfl rfl⟩

theorem parseKeysStep_lookup_ne (data : List (String × Val))
    (acc : List (String × Val)) (e : String × KeyRule) {k : String}
    (hne : e.1 ≠ k) :
    jsLookup (parseKeysStep data acc e) k = jsLookup acc k := by
  unfold parseKeysStep
  split
  · split
    · rfl
    · exact jsLookup_jsInsert_ne acc _ (Ne.symm hne)
  · rfl
  · exact jsLookup_jsInsert_ne acc _ (Ne.symm hne)

theorem parseKeys_fold_lookup_ne (data : List (String × Val))
    (keys : List (String × KeyRule)) (acc : List (String × Val)) {k : String}
    (hk : ∀ e ∈ keys, e.1 ≠ k) :
    jsLookup (keys.foldl (parseKeysStep data) acc) k = jsLookup acc k := by
  induction keys generalizing acc with
  | nil => rfl
  | cons e rest ih =>
    rw [List.foldl_cons, ih _ (fun e' he' => hk e' (List.mem_cons_of_mem _ he'))]
    exact parseKeysStep_lookup_ne data acc e (hk e (List.mem_cons_self _ _))

/-- C4: a key rule yielding a list with an `undefined` element never
emits its attribute — in particular `sk: (e) => [e.a, e.b]` on input
`{a: "x"}` derives no `sk`, while the fully populated input derives the
joined `x#y`. -/
theorem C4_composite_omission :
    (∀ (d : EntityDefinition) (data : List (String × Val)) (k : String)
        (rule : KeyRule) (parts : List Val),
      (d.keys.map Prod.fst).Nodup → (k, rule) ∈ d.keys →
      runKeyRule rule data = Val.list parts → parts.any isUndef = true →
      jsLookup (parseKeys d data) k = none) ∧
    parseKeys pairKeyEntity [("a", Val.str "x")] = [] ∧
    parseKeys pairKeyEntity [("a", Val.str "x"), ("b", Val.str "y")] =
      [("sk", Val.str "x#y")] := by
  refine ⟨?_, rfl, rfl⟩
  intro d data k rule parts hnodup hmem hrun hany
  unfold parseKeys
  have H : ∀ (keys : List (String × KeyRule)) (acc : List (String × Val)),
      (keys.map Prod.fst).Nodup → (k, rule) ∈ keys → jsLookup acc k = none →
      jsLookup (keys.foldl (parseKeysStep data) acc) k = none := by
    intro keys
    induction keys with
    | nil => intro acc _ hm _; cases hm
    | cons e rest ih =>
      intro acc hnd hm hacc
      rw [List.map_cons, List.nodup_cons] at hnd
      rcases List.mem_cons.mp hm with heq | hm'
      · rw [List.foldl_cons]
        rw [parseKeys_fold_lookup_ne data rest _ ?hrest]
        case hrest =>
          intro e' he' heqk
          apply hnd.1
          have h1 : e'.1 ∈ rest.map Prod.fst := List.mem_map_of_mem Prod.fst he'
          rw [heqk] at h1
          have hek : e.1 = k := by rw [← heq]
          rw [hek]
          exact h1
        rw [← heq]
        show jsLookup (match runKeyRule rule data with
          | .list parts =>
              if parts.any isUndef then acc
              else jsInsert acc k (.str (joinParts parts))
          | .undef => acc
          | v => jsInsert acc k v) k = none
        rw [hrun]
        show jsLookup (if parts.any isUndef = true then acc
          else jsInsert acc k (.str (joinParts parts))) k = none
        rw [if_pos hany]
        exact hacc
      · rw [List.foldl_cons]
        refine ih _ hnd.2 hm' ?_
        have hek : e.1 ≠ k := fun hek =>
          hnd.1 (hek ▸ List.mem_map_of_mem Prod.fst hm')
        rw [parseKeysStep_lookup_ne data acc e hek]
        exact hacc
  exact H d.keys [] hnodup hmem rfl

/-- C4 (witness): the general omission result applied to the
`sk: (e) => [e.a, e.b]` entity on input `{a: "x"}` with `b` absent. -/
theorem C4_composite_omission_witness :
    (pairKeyEntity.keys.map Prod.fst).Nodup ∧
    ("sk", KeyRule.fn (fun e => Val.list [jsField e "a", jsField e "b"])) ∈
      pairKeyEntity.keys ∧
    runKeyRule (KeyRule.fn (fun e => Val.list [jsField e "a", jsField e "b"]))
        [("a", Val.str "x")] = Val.list [Val.str "x", Val.undef] ∧
    ([Val.str "x", Val.undef].any isUndef) = true ∧
    jsLookup (parseKeys pairKeyEntity [("a", Val.str "x")]) "sk" = none :=
  ⟨List.nodup_cons.mpr ⟨List.not_mem_nil _, List.nodup_nil⟩,
    List.mem_cons_self _ _, rfl, rfl,
    C4_composite_omission.1 pairKeyEntity [("a", Val.str "x")] "sk"
      (KeyRule.fn (fun e => Val.list [jsField e "a", jsField e "b"]))
      [Val.str "x", Val.undef]
      (List.nodup_cons.mpr ⟨List.not_mem_nil _, List.nodup_nil⟩)
      (List.mem_cons_self _ _) rfl rfl⟩

theorem entityQueryPage_items (p : Page) :
    (entityQueryPage p).items = p.Items.getD [] := by
  cases p with
  | mk i l => cases l <;> rfl

theorem entityQueryPage_next (p : Page) :
    (entityQueryPage p).next.isSome = p.LastEvaluatedKey.isSome := by
  cases p with
  | mk i l => cases l <;> rfl

theorem queryAll_cons (p : Page) (rest : List Page) :
    queryAll (p :: rest) = (entityQueryPage p).items ++
      (if (entityQueryPage p).next.isSome then queryAll rest else []) := rfl

/-- A backend page carrying a continuation cursor. -/
def pageA : Page :=
  { Items := some [Val.str "i1"], LastEvaluatedKey := some [("pk", Val.str "1")] }

/-- The final backend page: no continuation cursor. -/
def pageB : Page :=
  { Items := some [Val.str "i2"], LastEvaluatedKey := none }

/-- A page past the cursor chain that must never be fetched. -/
def pageC : Page :=
  { Items := some [Val.str "i3"], LastEvaluatedKey := none }

/-- C9: a paged result carries the `next` capability exactly when the
backend returned a `LastEvaluatedKey` (in particular never without a
cursor), and `queryAll` concatenates, in order, the items of the pages up
to and including the first cursor-less page, ignoring everything after
it. -/
theorem C9_pagination :
    (∀ p : Page, (entityQueryPage p).next.isSome = p.LastEvaluatedKey.isSome) ∧
    (∀ (items : Option (List Val)) (nx : Option Unit),
      (parsePagedResult items none nx).next = none) ∧
    (∀ (pre : List Page) (last : Page) (post : List Page),
      (∀ p ∈ pre, p.LastEvaluatedKey.isSome = true) →
      last.LastEvaluatedKey = none →
      queryAll (pre ++ last :: post) =
        ((pre ++ [last]).map (fun p => p.Items.getD [])).flatten) := by
  refine ⟨entityQueryPage_next, fun items nx => rfl, ?_⟩
  intro pre
  induction pre with
  | nil =>
    intro last post hpre hlast
    have hc : ¬((entityQueryPage last).next.isSome = true) := by
      rw [entityQueryPage_next, hlast]
      simp
    rw [List.nil_append, queryAll_cons, if_neg hc, entityQueryPage_items,
      List.nil_append, List.map_cons, List.map_nil, List.flatten_cons,
      List.flatten_nil, List.append_nil]
  | cons p rest ih =>
    intro last post hpre hlast
    have hc : (entityQueryPage p).next.isSome = true := by
      rw [entityQueryPage_next]
      exact hpre p (List.mem_cons_self _ _)
    rw [List.cons_append, queryAll_cons, if_pos hc, entityQueryPage_items,
      ih last post (fun q hq => hpre q (List.mem_cons_of_mem _ hq)) hlast,
      List.cons_append, List.map_cons, List.flatten_cons]

/-- C9 (witness): a two-page cursor chain followed by an unreachable
page — only the first two pages' items are accumulated. -/
theorem C9_pagination_witness :
    (∀ p ∈ [pageA], p.LastEvaluatedKey.isSome = true) ∧
    pageB.LastEvaluatedKey = none ∧
    queryAll ([pageA] ++ pageB :: [pageC]) =
      (([pageA] ++ [pageB]).map (fun p => p.Items.getD [])).flatten :=
  ⟨by decide, rfl, C9_pagination.2.2 [pageA] pageB [pageC] (by decide) rfl⟩

/-- C10: `get`, `delete` and `update` all overwrite the `index` field of
the caller-supplied key object with `"table"` before resolution; the
mutated object always reads `index = "table"`, so a caller who set a
different index observes their argument object changed after the call. -/
theorem C10_key_mutation :
    (∀ (d : EntityDefinition) (key : List (String × Val)),
      (entityGet d key).1 = jsInsert key "index" (Val.str "table") ∧
      (entityDelete d key).1 = jsInsert key "index" (Val.str "table") ∧
      ∀ patch, (entityUpdate d key patch).1 =
        jsInsert key "index" (Val.str "table")) ∧
    (∀ (d : EntityDefinition) (key : List (String × Val)),
      jsLookup (entityGet d key).1 "index" = some (Val.str "table")) ∧
    (∀ (d : EntityDefinition) (key : List (String × Val)) (v : Val),
      jsLookup key "index" = some v → v ≠ Val.str "table" →
      (entityGet d key).1 ≠ key) := by
  refine ⟨fun d key => ⟨rfl, rfl, fun patch => rfl⟩,
    fun d key => jsLookup_jsInsert_self key "index" _, ?_⟩
  intro d key v hv hne heq
  have h1 : jsLookup (entityGet d key).1 "index" = some (Val.str "table") :=
    jsLookup_jsInsert_self key "index" _
  rw [heq, hv] at h1
  exact hne (Option.some.inj h1)

/-- C2: placeholder completeness.  For filter expressions (and key
conditions, which `generateQueryExpression` builds with the same
generator under the `key` namespace) and for update expressions, the
`#`-tokens of the produced expression string are exactly the keys of the
attribute-name map and the `:`-tokens exactly the keys of the
attribute-value map, in both directions. -/
theorem C2_placeholder_completeness :
    (∀ (pre : String) (filters : Option (List (String × Val))),
      wfName pre → (∀ e ∈ filters.getD [], wfName e.1) →
      (∀ t, t ∈ optTokens '#'
          (generateFilterExpression filters pre).FilterExpression ↔
        t ∈ (generateFilterExpression filters pre).ExpressionAttributeNames.map
          Prod.fst) ∧
      (∀ t, t ∈ optTokens ':'
          (generateFilterExpression filters pre).FilterExpression ↔
        t ∈ (generateFilterExpression
          filters pre).ExpressionAttributeValues.map Prod.fst)) ∧
    (∀ (key : List (String × Val)) (filters : Option (List (String × Val))),
      (generateQueryExpression key filters).KeyConditionExpression =
        (generateFilterExpression (some key) "key").FilterExpression) ∧
    (∀ (patch : List (String × Val)) (dno : List String),
      (∀ e ∈ patch, wfName e.1) →
      (∀ t, t ∈ scanTokens '#'
          (generateUpdateExpression patch dno).UpdateExpression.data ↔
        t ∈ (generateUpdateExpression patch dno).ExpressionAttributeNames.map
          Prod.fst) ∧
      (∀ t, t ∈ scanTokens ':'
          (generateUpdateExpression patch dno).UpdateExpression.data ↔
        t ∈ (generateUpdateExpression patch dno).ExpressionAttributeValues.map
          Prod.fst)) :=
  ⟨fun pre filters hp hfs => gfe_placeholder_completeness pre filters hp hfs,
    fun _ _ => rfl,
    fun patch dno hp => gue_placeholder_completeness patch dno hp⟩

/-- A concrete filter specification for the placeholder-completeness
witness. -/
def c2Filters : List (String × Val) :=
  [("status", Val.obj [("equals", Val.str "active")])]

/-- C2 (witness): completeness instantiated on a concrete `equals`
filter under the `filter` namespace. -/
theorem C2_placeholder_completeness_witness :
    wfName "filter" ∧
    (∀ e ∈ (some c2Filters).getD [], wfName e.1) ∧
    ((∀ t, t ∈ optTokens '#'
        (generateFilterExpression (some c2Filters) "filter").FilterExpression ↔
      t ∈ (generateFilterExpression
        (some c2Filters) "filter").ExpressionAttributeNames.map Prod.fst) ∧
     (∀ t, t ∈ optTokens ':'
        (generateFilterExpression (some c2Filters) "filter").FilterExpression ↔
      t ∈ (generateFilterExpression
        (some c2Filters) "filter").ExpressionAttributeValues.map Prod.fst)) :=
  ⟨by unfold wfName; decide,
    by
      intro e he
      simp only [Option.getD_some, c2Filters, List.mem_singleton] at he
      rw [he]
      unfold wfName
      decide,
    C2_placeholder_completeness.1 "filter" (some c2Filters)
      (by unfold wfName; decide)
      (by
        intro e he
        simp only [Option.getD_some, c2Filters, List.mem_singleton] at he
        rw [he]
        unfold wfName
        decide)⟩

theorem bind_ok_eq {α β : Type} (a : α) (f : α → Except String β) :
    (Except.ok a >>= f) = f a := rfl

theorem bind_error_eq {α β : Type} (m : String) (f : α → Except String β) :
    ((Except.error m : Except String α) >>= f) = Except.error m := rfl

theorem nonEqualsExpr_defined {v : Val} (h : nonEqualsExpr v = true) :
    isNull v = false ∧ isUndef v = false := by
  cases v
  case obj => exact ⟨rfl, rfl⟩
  all_goals exact absurd h (by simp [nonEqualsExpr])

theorem keyValOk_defined {v : Val} (h : keyValOk v = true) :
    isNull v = false ∧ isUndef v = false := by
  cases v
  case null => exact absurd h (by simp [keyValOk])
  case undef => exact absurd h (by simp [keyValOk])
  all_goals exact ⟨rfl, rfl⟩

theorem entityGet_error (d : EntityDefinition) (key : List (String × Val))
    {pr : String × List (String × Val)} {msg : String}
    (hres : resolveIndex d (forceTableIndex key) = Except.ok pr)
    (hkv : resolveKeyValues pr.2 = Except.error msg) :
    (entityGet d key).2 = Except.error msg := by
  show (resolveIndex d (forceTableIndex key) >>= fun r =>
    resolveKeyValues r.2 >>= fun kv =>
      (pure { Key := kv } : Except String GetRequest)) = Except.error msg
  rw [hres, bind_ok_eq]
  show resolveKeyValues pr.2 >>=
    (fun kv => (pure { Key := kv } : Except String GetRequest)) = Except.error msg
  rw [hkv, bind_error_eq]

theorem entityDelete_error (d : EntityDefinition) (key : List (String × Val))
    {pr : String × List (String × Val)} {msg : String}
    (hres : resolveIndex d (forceTableIndex key) = Except.ok pr)
    (hkv : resolveKeyValues pr.2 = Except.error msg) :
    (entityDelete d key).2 = Except.error msg := by
  show (resolveIndex d (forceTableIndex key) >>= fun r =>
    resolveKeyValues r.2 >>= fun kv =>
      (pure { Key := kv } : Except String DeleteRequest)) = Except.error msg
  rw [hres, bind_ok_eq]
  show resolveKeyValues pr.2 >>=
    (fun kv => (pure { Key := kv } : Except String DeleteRequest)) = Except.error msg
  rw [hkv, bind_error_eq]

theorem entityUpdate_error (d : EntityDefinition)
    (key patch : List (String × Val))
    {pr : String × List (String × Val)} {msg : String}
    (hres : resolveIndex d (forceTableIndex key) = Except.ok pr)
    (hkv : resolveKeyValues pr.2 = Except.error msg) :
    (entityUpdate d key patch).2 = Except.error msg := by
  show (resolveIndex d (forceTableIndex key) >>= fun r =>
    resolveKeyValues r.2 >>= fun kv =>
      (pure { Key := kv,
              expr := generateUpdateExpression
                (r.2.foldl
                  (fun pl f =>
                    if (jsLookup pl f.1).isSome then jsRemove pl f.1 else pl)
                  (expandPartialPayload d patch)) ["createdAt"] }
        : Except String UpdateRequest)) = Except.error msg
  rw [hres, bind_ok_eq]
  show resolveKeyValues pr.2 >>=
    (fun kv =>
      (pure { Key := kv,
              expr := generateUpdateExpression
                (pr.2.foldl
                  (fun pl f =>
                    if (jsLookup pl f.1).isSome then jsRemove pl f.1 else pl)
                  (expandPartialPayload d patch)) ["createdAt"] }
        : Except String UpdateRequest)) = Except.error msg
  rw [hkv, bind_error_eq]

/-- C3: single-item operations force resolution against the `table`
index (the mutated key always reads `index = "table"`, so the
`key.index || "table"` default yields `table` for every caller key), and
a non-`equals` key-condition expression on the hash key or on the range
key makes `get`, `delete` and `update` all fail with the
invalid-key-expression error instead of producing a storage request. -/
theorem C3_single_item_equality :
    (∀ key : List (String × Val),
      resolveIndexName (forceTableIndex key) = "table") ∧
    (∀ (d : EntityDefinition) (key : List (String × Val)) (h r : String)
        (hv : Val) (patch : List (String × Val)),
      jsLookup d.table.indexes "table" =
        some { hashKey := h, rangeKey := some r } →
      h ≠ "index" → r ≠ "index" → h ≠ r →
      jsLookup key h = some hv → nonEqualsExpr hv = true →
      (entityGet d key).2 = Except.error invalidKeyExpressionMessage ∧
      (entityDelete d key).2 = Except.error invalidKeyExpressionMessage ∧
      (entityUpdate d key patch).2 =
        Except.error invalidKeyExpressionMessage) ∧
    (∀ (d : EntityDefinition) (key : List (String × Val)) (h r : String)
        (hv rv : Val) (patch : List (String × Val)),
      jsLookup d.table.indexes "table" =
        some { hashKey := h, rangeKey := some r } →
      h ≠ "index" → r ≠ "index" → h ≠ r →
      jsLookup key h = some hv → keyValOk hv = true →
      jsLookup key r = some rv → nonEqualsExpr rv = true →
      (entityGet d key).2 = Except.error invalidKeyExpressionMessage ∧
      (entityDelete d key).2 = Except.error invalidKeyExpressionMessage ∧
      (entityUpdate d key patch).2 =
        Except.error invalidKeyExpressionMessage) := by
  refine ⟨?_, ?_, ?_⟩
  · intro key
    unfold resolveIndexName forceTableIndex
    rw [jsLookup_jsInsert_self]
    rfl
  · intro d key h r hv patch hidx hh hr hhr hhv hbad
    obtain ⟨hnn, hnu⟩ := nonEqualsExpr_defined hbad
    have hres := resolveIndex_forced d key hidx hh hr hhv hnn hnu
    have hRK : ∃ tail, (match jsLookup key r with
        | some rv => if isUndef rv then [(h, hv)]
            else jsInsert [(h, hv)] r rv
        | none => [(h, hv)]) = (h, hv) :: tail := by
      cases hl : jsLookup key r with
      | none => exact ⟨[], rfl⟩
      | some rv =>
        by_cases hu : isUndef rv = true
        · refine ⟨[], ?_⟩
          show (if isUndef rv = true then [(h, hv)]
            else jsInsert [(h, hv)] r rv) = [(h, hv)]
          rw [if_pos hu]
        · refine ⟨[(r, rv)], ?_⟩
          show (if isUndef rv = true then [(h, hv)]
            else jsInsert [(h, hv)] r rv) = (h, hv) :: [(r, rv)]
          rw [if_neg hu]
          show (if (h, hv).1 = r then (r, rv) :: []
            else (h, hv) :: jsInsert [] r rv) = (h, hv) :: [(r, rv)]
          rw [if_neg hhr]
          rfl
    obtain ⟨tail, htail⟩ := hRK
    rw [htail] at hres
    have hkv : resolveKeyValues ((h, hv) :: tail) =
        Except.error invalidKeyExpressionMessage :=
      resolveKeyValues_head_bad tail hbad
    exact ⟨entityGet_error d key hres hkv, entityDelete_error d key hres hkv,
      entityUpdate_error d key patch hres hkv⟩
  · intro d key h r hv rv patch hidx hh hr hhr hhv hok hrng hbad
    obtain ⟨hnn, hnu⟩ := keyValOk_defined hok
    have hres := resolveIndex_forced d key hidx hh hr hhv hnn hnu
    have hu : isUndef rv = false := (nonEqualsExpr_defined hbad).2
    have htail : (match jsLookup key r with
        | some rv => if isUndef rv then [(h, hv)]
            else jsInsert [(h, hv)] r rv
        | none => [(h, hv)]) = [(h, hv), (r, rv)] := by
      rw [hrng]
      show (if isUndef rv = true then [(h, hv)]
        else jsInsert [(h, hv)] r rv) = [(h, hv), (r, rv)]
      rw [hu, if_neg Bool.false_ne_true]
      show (if (h, hv).1 = r then (r, rv) :: []
        else (h, hv) :: jsInsert [] r rv) = [(h, hv), (r, rv)]
      rw [if_neg hhr]
      rfl
    rw [htail] at hres
    have hkv : resolveKeyValues [(h, hv), (r, rv)] =
        Except.error invalidKeyExpressionMessage :=
      resolveKeyValues_second_bad hok hbad
    exact ⟨entityGet_error d key hres hkv, entityDelete_error d key hres hkv,
      entityUpdate_error d key patch hres hkv⟩

/-- A single-item key supplying a `beginsWith` expression on the range
key. -/
def c3Key : List (String × Val) :=
  [("pk", Val.str "1"), ("sk", Val.obj [("beginsWith", Val.str "a")])]

/-- C3 (witness): `beginsWith` on the range key of the example table
makes `entity.get` fail with the invalid-key-expression error. -/
theorem C3_single_item_equality_witness :
    jsLookup exampleEntity.table.indexes "table" =
      some { hashKey := "pk", rangeKey := some "sk" } ∧
    jsLookup c3Key "pk" = some (Val.str "1") ∧
    keyValOk (Val.str "1") = true ∧
    jsLookup c3Key "sk" = some (Val.obj [("beginsWith", Val.str "a")]) ∧
    nonEqualsExpr (Val.obj [("beginsWith", Val.str "a")]) = true ∧
    (entityGet exampleEntity c3Key).2 =
      Except.error invalidKeyExpressionMessage :=
  ⟨rfl, rfl, rfl, rfl, rfl,
    (C3_single_item_equality.2.2 exampleEntity c3Key "pk" "sk" (Val.str "1")
      (Val.obj [("beginsWith", Val.str "a")]) [] rfl (by decide) (by decide)
      (by decide) rfl rfl rfl rfl).1⟩

/-- A caller-supplied key that explicitly targets `gsi1`. -/
def mutKey : List (String × Val) :=
  [("pk", Val.str "1"), ("index", Val.str "gsi1")]

/-- C10 (witness): a key whose caller-set `index = "gsi1"` is observably
overwritten by `entity.get`. -/
theorem C10_key_mutation_witness :
    jsLookup mutKey "index" = some (Val.str "gsi1") ∧
    Val.str "gsi1" ≠ Val.str "table" ∧
    (entityGet exampleEntity mutKey).1 ≠ mutKey :=
  ⟨rfl, fun h => absurd (Val.str.inj h) (by decide),
    C10_key_mutation.2.2 exampleEntity mutKey (Val.str "gsi1") rfl
      (fun h => absurd (Val.str.inj h) (by decide))⟩

end Turbine
